import Mathlib

/-!
Verification of the mythril-bot task-orchestration core.

This file gives a shallow embedding, in Lean 4, of the pure logic of the
bot's task-orchestration core:

* `src/workflow/state-machine.ts` — the task status state machine;
* `src/watcher/parser.ts`         — the Markdown task-document parser;
* `src/watcher/differ.ts`         — the structured task diff engine;
* `src/workflow/approval-service.ts` — the approval / rejection workflow
  and its document-mutation helpers;
* `src/watcher/vault-monitor.ts`  — the filesystem-event handlers of the
  vault monitor (modelled over an explicit vault state);
* `src/executor/process-manager.ts` — the stop-cycle of the subprocess
  manager (modelled as an explicit event-step system);
* `src/executor/stream-buffer.ts` — the output batching buffer (modelled
  with the synchronous part of a flush and the completion of an awaited
  sink delivery as separate steps).

The TypeScript code manipulates documents with JavaScript regular
expressions.  Those specific regexes are embedded here as deterministic
scanners over `List Char` which implement the leftmost-match-with-
backtracking semantics of the corresponding JavaScript patterns.
Effectful operations (file writes) are modelled by explicit state
passing over a `Vault` record.
-/

namespace Mythril

/-! ## JavaScript character classes and string helpers -/

/-- JavaScript `\s` character class (whitespace as used by `trim`,
`\s` in regexes and `String.prototype.trim`): space, tab, newline,
carriage return, vertical tab, form feed, and the Unicode space
separators recognized by the JavaScript engine. -/
def isJsSpace (c : Char) : Bool :=
  c.toNat = 0x20 || c.toNat = 0x09 || c.toNat = 0x0a || c.toNat = 0x0d ||
  c.toNat = 0x0b || c.toNat = 0x0c || c.toNat = 0xa0 || c.toNat = 0x1680 ||
  (0x2000 ≤ c.toNat && c.toNat ≤ 0x200a) ||
  c.toNat = 0x2028 || c.toNat = 0x2029 || c.toNat = 0x202f ||
  c.toNat = 0x205f || c.toNat = 0x3000 || c.toNat = 0xfeff

/-- JavaScript `\d` character class (`0`–`9`). -/
def isAsciiDigit (c : Char) : Bool := 48 ≤ c.toNat && c.toNat ≤ 57

/-- `String.prototype.trim` on a character list. -/
def jsTrimList (cs : List Char) : List Char :=
  ((cs.dropWhile isJsSpace).reverse.dropWhile isJsSpace).reverse

/-- `String.prototype.trim`. -/
def jsTrim (s : String) : String := (jsTrimList s.data).asString

/-- ASCII lower-casing, as `String.prototype.toLowerCase` acts on the
ASCII field names appearing in task documents. -/
def asciiLowerChar (c : Char) : Char :=
  if 'A' ≤ c && c ≤ 'Z' then Char.ofNat (c.toNat + 32) else c

def asciiLower (s : String) : String := (s.data.map asciiLowerChar).asString

/-- ASCII upper-casing, as `String.prototype.toUpperCase` acts on status
strings. -/
def asciiUpperChar (c : Char) : Char :=
  if 'a' ≤ c && c ≤ 'z' then Char.ofNat (c.toNat - 32) else c

def asciiUpper (s : String) : String := (s.data.map asciiUpperChar).asString

/-- Decimal digit characters of a natural number, computed with a fuel
bound (any `fuel > n` suffices: the value shrinks by a factor of ten
each step). -/
def natToDecimalAux : Nat → Nat → List Char
  | 0, _ => []
  | fuel + 1, n =>
    if n < 10 then [Char.ofNat (48 + n)]
    else natToDecimalAux fuel (n / 10) ++ [Char.ofNat (48 + n % 10)]

/-- Decimal digits of a natural number, as JavaScript template-literal
interpolation `${count}` renders a (non-negative integral) number. -/
def natToDecimal (n : Nat) : String :=
  (natToDecimalAux (n + 1) n).asString

/-- Numeric value of a list of decimal digit characters
(`parseInt(d, 10)` on an all-digits string). -/
def digitsToNat (cs : List Char) : Nat :=
  cs.foldl (fun a c => a * 10 + (c.toNat - 48)) 0

/-! ## Task state machine (`src/workflow/state-machine.ts`) -/

/-- The closed status enum `TaskStatus`. -/
inductive TaskStatus where
  | IN_PROGRESS
  | EXECUTING
  | PENDING_REVIEW
  | COMPLETED
  | BLOCKED
deriving DecidableEq, Repr, Fintype

open TaskStatus

/-- The string value of each enum member. -/
def TaskStatus.toStr : TaskStatus → String
  | .IN_PROGRESS => "IN_PROGRESS"
  | .EXECUTING => "EXECUTING"
  | .PENDING_REVIEW => "PENDING_REVIEW"
  | .COMPLETED => "COMPLETED"
  | .BLOCKED => "BLOCKED"

/-- `Object.values(TaskStatus)`, in declaration order. -/
def taskStatusValues : List TaskStatus :=
  [.IN_PROGRESS, .EXECUTING, .PENDING_REVIEW, .COMPLETED, .BLOCKED]

/-- The `validTransitions` record. -/
def validTransitions : TaskStatus → List TaskStatus
  | .IN_PROGRESS => [.EXECUTING, .BLOCKED]
  | .EXECUTING => [.IN_PROGRESS, .PENDING_REVIEW]
  | .PENDING_REVIEW => [.COMPLETED, .IN_PROGRESS]
  | .COMPLETED => []
  | .BLOCKED => [.IN_PROGRESS]

/-- `canTransition(from, to)`. -/
def canTransition (fromSt toSt : TaskStatus) : Bool :=
  (validTransitions fromSt).contains toSt

/-- One pass of `replace(/\s+/g, '_')`: the flag records whether the
previous character was inside a whitespace run (whose first character
already emitted the underscore). -/
def collapseRun : Bool → List Char → List Char
  | _, [] => []
  | inRun, c :: cs =>
    if isJsSpace c then
      if inRun then collapseRun true cs else '_' :: collapseRun true cs
    else c :: collapseRun false cs

/-- The normalization performed by `parseStatus`:
`statusStr.toUpperCase().replace(/\s+/g, '_')` — upper-case, then every
maximal run of whitespace becomes a single underscore. -/
def collapseSpacesToUnderscore (cs : List Char) : List Char :=
  collapseRun false cs

/-- `parseStatus(statusStr)`: normalize and check membership in the
closed enum, returning `none` for anything outside it. -/
def parseStatus (statusStr : String) : Option TaskStatus :=
  let normalized := (collapseSpacesToUnderscore (asciiUpper statusStr).data).asString
  taskStatusValues.find? (fun st => st.toStr = normalized)

/-! ## Task data model (`src/types.ts`) -/

structure TaskMetadata where
  status : String
  project : String
  trustLevel : String
  priority : String
  created : String
  activated : String
  branch : String
  repoPath : String
deriving DecidableEq, Repr

structure AcceptanceCriterion where
  text : String
  completed : Bool
deriving DecidableEq, Repr

structure ParsedTask where
  id : String
  title : String
  metadata : TaskMetadata
  description : String
  acceptanceCriteria : List AcceptanceCriterion
  executionLog : List String
  rawContent : String
  contentHash : String
deriving DecidableEq, Repr

structure ChangedCriterion where
  text : String
  oldCompleted : Bool
  newCompleted : Bool
deriving DecidableEq, Repr

structure TaskDiff where
  statusChanged : Bool
  oldStatus : Option String
  newStatus : Option String
  criteriaChanged : Bool
  changedCriteria : List ChangedCriterion
  newLogEntries : List String
  isNewTask : Bool
deriving DecidableEq, Repr

structure QueuedTask where
  filename : String
  title : String
  project : String
  priority : String
deriving DecidableEq, Repr

/-! ## Diff engine (`src/watcher/differ.ts`) -/

/-- Lookup in the `Map` built by inserting every criterion of the old
task in order (`Map.set`: the last insertion for a text wins). -/
def criteriaMapGet (l : List AcceptanceCriterion) (t : String) : Option Bool :=
  l.foldl (fun acc c => if c.text = t then some c.completed else acc) none

/-- `diffTasks(oldTask, newTask)`. -/
def diffTasks (oldTask : Option ParsedTask) (newTask : ParsedTask) : TaskDiff :=
  match oldTask with
  | none =>
    { statusChanged := true
      oldStatus := none
      newStatus := some newTask.metadata.status
      criteriaChanged := false
      changedCriteria := []
      newLogEntries := newTask.executionLog
      isNewTask := true }
  | some oldT =>
    let statusChanged := oldT.metadata.status ≠ newTask.metadata.status
    let changedCriteria := newTask.acceptanceCriteria.filterMap fun c =>
      match criteriaMapGet oldT.acceptanceCriteria c.text with
      | some oldCompleted =>
        if oldCompleted ≠ c.completed then
          some { text := c.text, oldCompleted := oldCompleted, newCompleted := c.completed }
        else none
      | none => none
    let newLogEntries := newTask.executionLog.filter
      (fun e => ¬ oldT.executionLog.contains e)
    { statusChanged := statusChanged
      oldStatus := if statusChanged then some oldT.metadata.status else none
      newStatus := if statusChanged then some newTask.metadata.status else none
      criteriaChanged := ¬ changedCriteria.isEmpty
      changedCriteria := changedCriteria
      newLogEntries := newLogEntries
      isNewTask := false }

/-- `hasMeaningfulChanges(diff)`. -/
def hasMeaningfulChanges (diff : TaskDiff) : Bool :=
  diff.isNewTask || diff.statusChanged || diff.criteriaChanged ||
  diff.newLogEntries.length > 0

/-! ## Pipe-table scanners

The parser and the approval service search documents with JavaScript
regexes of the shape `\|\s*…\s*\|\s*…\s*\|`.  Between two pipes the
sub-pattern `\s*X\s*` (with `X` pipe-free) matches exactly a pipe-free
cell whose trimmed text is `X`, so every such regex is equivalent to a
deterministic scan over the pipe-separated cells of the text.  The
scanners below implement the engine's candidate order: a match attempt
starts at each `|` in turn, and a successful three-pipe match resumes
scanning after its closing pipe (`lastIndex` semantics of `/g` and of
`String.prototype.replace`). -/

/-- Split a character list into its pipe-separated segments: `n` pipes
give `n + 1` (pipe-free) segments, and the original text is the
segments rejoined with `|` (`joinSegs`). -/
def pipeSegs : List Char → List (List Char)
  | [] => [[]]
  | c :: cs =>
    if c = '|' then [] :: pipeSegs cs
    else
      match pipeSegs cs with
      | [] => [[c]]
      | s :: rest => (c :: s) :: rest

/-- Rejoin pipe-separated segments. -/
def joinSegs : List (List Char) → List Char
  | [] => []
  | [s] => s
  | s :: rest => s ++ '|' :: joinSegs rest

/-- The repeated-`exec` scan of `/\|\s*([^|]+)\s*\|\s*([^|]+)\s*\|/g`
over the segments strictly after the first pipe: a row at the candidate
opening pipe before `c1` succeeds when both cells are non-empty and the
closing pipe exists (a third segment follows); the scan then resumes
after the closing pipe, whose following segment is skipped as the text
before the next candidate pipe.  Any failure moves the candidate to the
next pipe. -/
def scanSegRows : List (List Char) → List (List Char × List Char)
  | [] => []
  | c1 :: rest =>
    let retry := scanSegRows rest
    match rest with
    | c2 :: _ :: rest3 =>
      if c1 ≠ [] && c2 ≠ [] then (c1, c2) :: scanSegRows rest3
      else retry
    | _ => []

/-- All two-cell table rows of the text, in match order (`pipeSegs` is
never empty; its head is the text before the first pipe, where no match
can start). -/
def scanRows (cs : List Char) : List (List Char × List Char) :=
  scanSegRows (pipeSegs cs).tail

/-- `findRow` over segments: the first row whose (non-empty) cells
satisfy `pred`, with the list of candidate cells skipped before the
match and the segments after the closing pipe. -/
def findSegRow (pred : List Char → List Char → Bool) :
    List (List Char) →
    Option (List (List Char) × List Char × List Char × List (List Char))
  | [] => none
  | c1 :: rest =>
    match rest with
    | c2 :: c3 :: rest3 =>
      if c1 ≠ [] && c2 ≠ [] && pred c1 c2 then some ([], c1, c2, c3 :: rest3)
      else (findSegRow pred rest).map (fun r => (c1 :: r.1, r.2))
    | _ => none

/-- Find the first row `\| cell1 \| cell2 \|` whose cells satisfy
`pred`, mirroring `String.prototype.replace` with a non-global regex:
returns the text before the match, the two raw cells, and the text
after the closing pipe.  A structural or predicate failure at one
candidate `|` resumes at the next `|`. -/
def findRow (pred : List Char → List Char → Bool) (cs : List Char) :
    Option (List Char × List Char × List Char × List Char) :=
  (findSegRow pred (pipeSegs cs).tail).map fun r =>
    (joinSegs ((pipeSegs cs).headD [] :: r.1), r.2.1, r.2.2.1, joinSegs r.2.2.2)

/-- `hasCell` over segments: some candidate pipe opens a cell
satisfying `pred` that is closed by a following pipe. -/
def hasSegCell (pred : List Char → Bool) : List (List Char) → Bool
  | [] => false
  | c :: rest => (¬ rest.isEmpty && pred c) || hasSegCell pred rest

/-- Presence test for `/\|\s*Retry Count\s*\|/i`-style two-pipe
patterns: is there a pair of consecutive pipes whose cell satisfies
`pred`?  Each closing pipe is also the next candidate opening pipe. -/
def hasCell (pred : List Char → Bool) (cs : List Char) : Bool :=
  hasSegCell pred (pipeSegs cs).tail

/-- Does the text right after a row's closing pipe satisfy the
`\n(\n|## )` tail of the insert-anchor regex? -/
def anchorTail (c3 : List Char) : Bool :=
  match c3 with
  | '\n' :: r => r.head? = some '\n' || "## ".data.isPrefixOf r
  | _ => false

/-- `findInsertAnchor` over segments. -/
def findSegAnchor :
    List (List Char) →
    Option (List (List Char) × List Char × List Char × List Char × List (List Char))
  | [] => none
  | c1 :: rest =>
    match rest with
    | c2 :: c3 :: rest3 =>
      if c1 ≠ [] && c2 ≠ [] && anchorTail c3 then some ([], c1, c2, c3, rest3)
      else (findSegAnchor rest).map (fun r => (c1 :: r.1, r.2))
    | _ => none

/-- Find the first match of `(\|\s*[^|]+\s*\|\s*[^|]+\s*\|\n)(\n|## )`:
a table row immediately followed by a newline and then either a blank
line or a `## ` heading.  Returns the text before the match, the
matched row including its trailing newline (capture group 1), and the
remainder starting at group 2 (which `slice(insertPos)` keeps). -/
def findInsertAnchor (cs : List Char) :
    Option (List Char × List Char × List Char) :=
  (findSegAnchor (pipeSegs cs).tail).map fun r =>
    (joinSegs ((pipeSegs cs).headD [] :: r.1),
     '|' :: (r.2.1 ++ '|' :: (r.2.2.1 ++ ['|', '\n'])),
     joinSegs (r.2.2.2.1.tail :: r.2.2.2.2))

/-- Does a raw cell match `\s*X\s*` for the pipe-free literal `X`,
case-insensitively?  Equivalently: its trimmed, lower-cased text equals
`key` (given lower-case, trimmed `key`). -/
def cellIs (key : String) (cell : List Char) : Bool :=
  asciiLower (jsTrimList cell).asString = key

/-- Does a raw cell match `\s*(\d+)\s*`?  Equivalently: its trimmed
text is a non-empty run of ASCII digits. -/
def digitsCell (cell : List Char) : Bool :=
  jsTrimList cell ≠ [] && (jsTrimList cell).all isAsciiDigit

/-! ## Section scanners

The parser extracts sections with regexes of the shape
`HEADING\s*([\s\S]*?)(?=STOP1|STOP2|…)` where the stop alternatives are
literals such as `\n##` or `\n---`, the line-end form `\n$` (a newline
that is the last character — no `/m` flag), or bare `$`.  The greedy
`\s*` takes the maximal whitespace run; the lazy group then stops at
the first stop position at or after it; if none exists the engine gives
whitespace back one character at a time, which can only succeed with an
empty body at a stop position inside the run. -/

structure SectionStops where
  pats : List (List Char)
  nlEnd : Bool
  bareEnd : Bool

/-- Does one of the stop alternatives match at this position? -/
def stopHere (st : SectionStops) (cs : List Char) : Bool :=
  st.pats.any (fun p => p.isPrefixOf cs) ||
  (st.nlEnd && cs = ['\n']) ||
  (st.bareEnd && cs = [])

/-- Forward scan for the first stop position: the text before it and
the remainder from it. -/
def scanStop (st : SectionStops) : List Char → Option (List Char × List Char)
  | [] => if stopHere st [] then some ([], []) else none
  | c :: rest =>
    if stopHere st (c :: rest) then some ([], c :: rest)
    else (scanStop st rest).map (fun p => (c :: p.1, p.2))

/-- Section body after a heading occurrence: maximal whitespace run,
then the lazy body up to the first stop; on failure, an empty body if
some stop position lies inside the whitespace run. -/
def sectionBodyAt (st : SectionStops) (afterHeading : List Char) : Option (List Char) :=
  let w := afterHeading.takeWhile isJsSpace
  let rest := afterHeading.drop w.length
  match scanStop st rest with
  | some (body, _) => some body
  | none =>
    if (List.range w.length).any (fun j => stopHere st (w.drop j ++ rest)) then
      some []
    else none

/-- First occurrence of `heading` (scanning left to right) at which the
whole section pattern succeeds; returns the captured body. -/
def findSection (heading : List Char) (st : SectionStops) : List Char → Option (List Char)
  | [] =>
    if heading.isPrefixOf [] then sectionBodyAt st [] else none
  | c :: rest =>
    if heading.isPrefixOf (c :: rest) then
      match sectionBodyAt st ((c :: rest).drop heading.length) with
      | some b => some b
      | none => findSection heading st rest
    else findSection heading st rest

/-- Match `\s*(.+)$` at the head of the text (`.` excludes newlines, no
`/m` so `$` only matches before a final newline or at the end): greedy
whitespace, then at least one non-newline character captured up to the
line end.  Returns the capture and the number of characters consumed.
When everything to the end is whitespace, the greedy `\s*` backtracks
to leave the last non-newline whitespace character for `.+`. -/
def wsThenRestOfLine (cs : List Char) : Option (List Char × Nat) :=
  let w := cs.takeWhile isJsSpace
  let r := cs.drop w.length
  if r ≠ [] then
    let cap := r.takeWhile (fun c => c ≠ '\n')
    some (cap, w.length + cap.length)
  else
    let trailing := w.reverse.takeWhile (fun c => c = '\n')
    match w.reverse.drop trailing.length with
    | [] => none
    | c0 :: _ => some ([c0], w.length - trailing.length)

/-! ## Task document parser (`src/watcher/parser.ts`) -/

/-- `computeHash(content)`: in the source an MD5 hex digest obtained
from node's `crypto` module (an external library).  Modelled from the
spec: "contentHash is a pure function of rawContent (any hash algorithm
is acceptable; the system must treat it as content-addressed only for
equality comparison, not for security)" — embedded as a deterministic
polynomial digest of the raw content rendered in decimal. -/
def computeHash (content : String) : String :=
  natToDecimal (content.data.foldl (fun a c => (a * 131 + c.toNat) % (2 ^ 64)) 7)

/-- Match the tail `\s*-\s*(.+)$` of the title regex. -/
def idTitleTail (cs : List Char) : Option (List Char) :=
  match cs.dropWhile isJsSpace with
  | '-' :: cs2 => (wsThenRestOfLine cs2).map (·.1)
  | _ => none

/-- Match `\s*(\S+)\s*-\s*(.+)$` against the text after `# Task:`.
The greedy `\S+` backtracks from the full non-space run down to a
single character until the rest of the pattern matches. -/
def matchIdTitle (afterColon : List Char) : Option (String × String) :=
  let a := afterColon.dropWhile isJsSpace
  let w := a.takeWhile (fun c => ¬ isJsSpace c)
  let rest := a.drop w.length
  if w = [] then none
  else
    (List.range w.length).reverse.findSome? fun k =>
      (idTitleTail (w.drop (k + 1) ++ rest)).map fun t =>
        ((w.take (k + 1)).asString, jsTrim t.asString)

/-- Try an anchored pattern at the position following each newline, in
order. -/
def scanAfterNewlines {α : Type} (tryMatch : List Char → Option α) : List Char → Option α
  | [] => none
  | c :: rest =>
    if c = '\n' then
      match tryMatch rest with
      | some r => some r
      | none => scanAfterNewlines tryMatch rest
    else scanAfterNewlines tryMatch rest

/-- Try an anchored (`^` with `/m`) pattern at every line start in
order, returning the first success. -/
def scanLineStarts {α : Type} (tryMatch : List Char → Option α) (cs : List Char) : Option α :=
  match tryMatch cs with
  | some r => some r
  | none => scanAfterNewlines tryMatch cs

/-- `parseTaskTitle(content)`: first
`/^# Task:\s*(\S+)\s*-\s*(.+)$/m`, then `/^# Task:\s*(.+)$/m`, then the
`UNKNOWN` defaults. -/
def parseTaskTitle (content : String) : String × String :=
  let withId := scanLineStarts
    (fun cs => if "# Task:".data.isPrefixOf cs then matchIdTitle (cs.drop 7) else none)
    content.data
  match withId with
  | some (id, title) => (id, title)
  | none =>
    let simple := scanLineStarts
      (fun cs =>
        if "# Task:".data.isPrefixOf cs then
          (wsThenRestOfLine (cs.drop 7)).map (fun p => jsTrim p.1.asString)
        else none)
      content.data
    match simple with
    | some title => ("UNKNOWN", title)
    | none => ("UNKNOWN", "Unknown Task")

/-- The metadata defaults of `parseMetadataTable`. -/
def metadataDefaults : TaskMetadata :=
  { status := "UNKNOWN", project := "", trustLevel := "", priority := ""
    created := "", activated := "", branch := "", repoPath := "" }

/-- One step of the `fieldMappings` loop: apply a trimmed, lower-cased
field name and trimmed value to the metadata record; unrecognized
fields are ignored. -/
def applyMetadataRow (m : TaskMetadata) (field v : String) : TaskMetadata :=
  if field = "status" then { m with status := v }
  else if field = "project" then { m with project := v }
  else if field = "trust level" then { m with trustLevel := v }
  else if field = "priority" then { m with priority := v }
  else if field = "created" then { m with created := v }
  else if field = "activated" then { m with activated := v }
  else if field = "branch" then { m with branch := v }
  else if field = "repo path" then { m with repoPath := v }
  else m

/-- `parseMetadataTable(content)`: scan all pipe rows, fold recognized
fields over the defaults (the last occurrence of a field wins). -/
def parseMetadataTable (content : String) : TaskMetadata :=
  (scanRows content.data).foldl
    (fun m r => applyMetadataRow m (asciiLower (jsTrimList r.1).asString) (jsTrimList r.2).asString)
    metadataDefaults

/-- The checkbox class `[ xX]`. -/
def checkboxFlag (c : Char) : Bool := c = ' ' || c = 'x' || c = 'X'

/-- Match `- \[([ xX])\]\s*(.+)` at the head of the text: returns the
flag character, the raw capture of `(.+)`, and the number of characters
consumed by the whole match (the `/g` scan resumes there). -/
def checkboxAt (cs : List Char) : Option (Char × List Char × Nat) :=
  match cs with
  | c1 :: c2 :: c3 :: f :: c5 :: rest =>
    if c1 = '-' && c2 = ' ' && c3 = '[' && checkboxFlag f && c5 = ']' then
      (wsThenRestOfLine rest).map (fun p => (f, p.1, 5 + p.2))
    else none
  | _ => none

/-- The `/g` scan of the checkbox regex over a section body: at each
position try a match; a match emits a criterion and resumes after its
end, otherwise the scan advances one character.  The scan consumes at
least one character per step, so a fuel of the text's length
suffices. -/
def scanCheckboxesFuel : Nat → List Char → List AcceptanceCriterion
  | 0, _ => []
  | fuel + 1, cs =>
    match cs with
    | [] => []
    | c :: rest =>
      match checkboxAt (c :: rest) with
      | some (f, cap, n) =>
        { text := jsTrim cap.asString, completed := asciiLowerChar f = 'x' } ::
          scanCheckboxesFuel fuel ((c :: rest).drop n)
      | none => scanCheckboxesFuel fuel rest

def scanCheckboxes (cs : List Char) : List AcceptanceCriterion :=
  scanCheckboxesFuel cs.length cs

/-- The stop alternatives `(?=\n##|\n---|\n$)` of the acceptance
criteria section regex. -/
def acStops : SectionStops :=
  { pats := ["\n##".data, "\n---".data], nlEnd := true, bareEnd := false }

/-- `parseAcceptanceCriteria(content)`. -/
def parseAcceptanceCriteria (content : String) : List AcceptanceCriterion :=
  match findSection "## Acceptance Criteria".data acStops content.data with
  | none => []
  | some body => scanCheckboxes body

/-- The stop alternatives `(?=\n---|\n$)` of the execution log section
regex. -/
def execLogStops : SectionStops :=
  { pats := ["\n---".data], nlEnd := true, bareEnd := false }

/-- Is a trimmed line a log entry?  The source keeps lines starting
with `- [` that are not `- [ ]` and not `- [x]` checkbox syntax (the
upper-case `- [X]` form is *not* excluded). -/
def isLogEntryLine (t : String) : Bool :=
  t.startsWith "- [" && ¬ t.startsWith "- [ ]" && ¬ t.startsWith "- [x]"

/-- `parseExecutionLog(content)`: split the section body on newlines
and keep the trimmed log-entry lines with their `- ` prefix removed. -/
def parseExecutionLog (content : String) : List String :=
  match findSection "## Execution Log".data execLogStops content.data with
  | none => []
  | some body =>
    (body.asString.splitOn "\n").filterMap fun line =>
      let t := jsTrim line
      if isLogEntryLine t then some (t.drop 2) else none

/-- The stop alternatives `(?=\n##|$)` of the task description section
regex. -/
def descStops : SectionStops :=
  { pats := ["\n##".data], nlEnd := false, bareEnd := true }

/-- `parseDescription(content)`. -/
def parseDescription (content : String) : String :=
  match findSection "## Task Description".data descStops content.data with
  | none => ""
  | some body => jsTrim body.asString

/-! ## Approval service document mutators
(`src/workflow/approval-service.ts`) -/

/-- Predicate of the status-row regex `\|\s*Status\s*\|\s*[^|]+\s*\|`
(case-insensitive): first cell is whitespace-wrapped `Status`, second
cell is any non-empty pipe-free text (already guaranteed by the row
shape). -/
def statusRowPred (c1 : List Char) (_c2 : List Char) : Bool := cellIs "status" c1

/-- `updateTaskStatus(content, newStatus)`: replace the first status
row with `| Status | ${newStatus} |`, or return the content unchanged
when no row matches. -/
def updateTaskStatus (content : String) (newStatus : TaskStatus) : String :=
  match findRow statusRowPred content.data with
  | some (pre, _, _, rest) =>
    (pre ++ ("| Status | " ++ newStatus.toStr ++ " |").data ++ rest).asString
  | none => content

/-- Predicate of `\|\s*Retry Count\s*\|\s*(\d+)\s*\|` (/i). -/
def retryRowPred (c1 c2 : List Char) : Bool :=
  cellIs "retry count" c1 && digitsCell c2

/-- `getRetryCount(content)`: the captured digits of the first
well-formed retry row, or `0` when absent. -/
def getRetryCount (content : String) : Nat :=
  match findRow retryRowPred content.data with
  | some (_, _, c2, _) => digitsToNat (jsTrimList c2)
  | none => 0

/-- `updateRetryCount(content, count)`: if some `\|\s*Retry Count\s*\|`
fragment is present, replace the first well-formed retry row (a
no-match replace leaves the content unchanged); otherwise insert a new
retry row after the first metadata-table row that is followed by a
blank line or a `## ` heading; with no such anchor the content is
returned unchanged. -/
def updateRetryCount (content : String) (count : Nat) : String :=
  if hasCell (cellIs "retry count") content.data then
    match findRow retryRowPred content.data with
    | some (pre, _, _, rest) =>
      (pre ++ ("| Retry Count | " ++ natToDecimal count ++ " |").data ++ rest).asString
    | none => content
  else
    match findInsertAnchor content.data with
    | some (pre, g1, rest) =>
      (pre ++ g1 ++ ("| Retry Count | " ++ natToDecimal count ++ " |\n").data ++ rest).asString
    | none => content

/-- `addApprovalMetadata(content, approver, timestamp)`: insert the two
approval rows after the same table anchor, or return the content
unchanged. -/
def addApprovalMetadata (content approver timestamp : String) : String :=
  match findInsertAnchor content.data with
  | some (pre, g1, rest) =>
    (pre ++ g1 ++
      ("| Approved | " ++ timestamp ++ " |\n| Approved By | " ++ approver ++ " |\n").data
      ++ rest).asString
  | none => content

/-- The `\s*\n` part of the execution-log append regex: the prefix of
the maximal whitespace run up to and including its last newline
(greedy `\s*` backtracking until a literal `\n` follows), or `none`
when the run contains no newline. -/
def logWsConsumed (w : List Char) : Option (List Char) :=
  let tailNoNl := w.reverse.takeWhile (fun c => c ≠ '\n')
  if tailNoNl.length = w.length then none
  else some (w.take (w.length - tailNoNl.length))

/-- The lazy `([\s\S]*?)(\n---|\n$|$)` tail of the append regex: split
at the first position where `\n---` starts or where a final newline
sits (the `$` alternative matches at the very end, so the whole match
always succeeds). -/
def lazySplit : List Char → (List Char × List Char)
  | [] => ([], [])
  | c :: rest =>
    if c = '\n' && ("---".data.isPrefixOf rest || rest.isEmpty) then ([], c :: rest)
    else
      let p := lazySplit rest
      (c :: p.1, p.2)

/-- The body of the append regex after a `## Execution Log` heading
occurrence: consume `\s*\n`, then split lazily; `none` when the
whitespace after the heading contains no newline. -/
def logBodyAt (afterHeading : List Char) : Option (List Char × List Char) :=
  let w := afterHeading.takeWhile isJsSpace
  match logWsConsumed w with
  | none => none
  | some w2 =>
    let p := lazySplit (afterHeading.drop w2.length)
    some (w2 ++ p.1, p.2)

/-- Scan for the first `## Execution Log` occurrence at which the whole
append regex matches: returns the consumed text ending at the insert
position (`match.index + match[1].length`) and the remainder. -/
def appendLogScan : List Char → Option (List Char × List Char)
  | [] => none
  | c :: rest =>
    if "## Execution Log".data.isPrefixOf (c :: rest) then
      match logBodyAt ((c :: rest).drop 16) with
      | some (mid, tail) => some ("## Execution Log".data ++ mid, tail)
      | none => (appendLogScan rest).map (fun p => (c :: p.1, p.2))
    else (appendLogScan rest).map (fun p => (c :: p.1, p.2))

/-- `appendToExecutionLog(content, entry)`: insert `\n` + entry at the
end of the execution-log section, or append a whole new section when
the regex does not match. -/
def appendToExecutionLog (content entry : String) : String :=
  match appendLogScan content.data with
  | some (pre, tail) => (pre ++ '\n' :: entry.data ++ tail).asString
  | none => content ++ "\n\n## Execution Log\n\n" ++ entry ++ "\n"

/-! ## Approval service workflow
(`src/workflow/approval-service.ts`, `src/workflow/file-mover.ts`)

The file mover's writes are modelled over an explicit `Vault` state;
in the model filesystem writes always succeed (I/O failure is
environmental).  `approve` takes the timestamp and the date prefix as
arguments (`new Date()` in the source). -/

structure Vault where
  activeFile : String
  completedFiles : List (String × String)
deriving DecidableEq, Repr

/-- The placeholder text written by `clearActiveFile`. -/
def emptyActiveContent : String :=
  "# Task: None\n\nNo active task. Use `!oads activate <task-id>` to activate a task from the queue.\n"

structure ApprovalResult where
  success : Bool
  message : String
  newPath : Option String
deriving DecidableEq, Repr

structure RejectionResult where
  success : Bool
  message : String
  retryCount : Option Nat
deriving DecidableEq, Repr

/-- `allCriteriaCompleted(task)`. -/
def allCriteriaCompleted (task : ParsedTask) : Bool :=
  task.acceptanceCriteria.length > 0 && task.acceptanceCriteria.all (·.completed)

/-- The status-mismatch failure message of `approve`. -/
def statusMismatchMsg (s : TaskStatus) : String :=
  "Cannot approve task in " ++ s.toStr ++
    " status. Expected PENDING_REVIEW or all criteria completed."

/-- `approve(task, approver, notes?)`. -/
def approve (task : ParsedTask) (approver : String) (notes : Option String)
    (timestamp date : String) (v : Vault) : ApprovalResult × Vault :=
  match parseStatus task.metadata.status with
  | none =>
    ({ success := false, message := "Unknown task status: " ++ task.metadata.status
       newPath := none }, v)
  | some currentStatus =>
    let incompleteCount := (task.acceptanceCriteria.filter (fun c => ¬ c.completed)).length
    let warningMessage :=
      if incompleteCount > 0 then
        " Warning: " ++ natToDecimal incompleteCount ++ " criteria still incomplete."
      else ""
    if currentStatus ≠ TaskStatus.PENDING_REVIEW && ¬ allCriteriaCompleted task
        && ¬ canTransition currentStatus TaskStatus.COMPLETED then
      ({ success := false, message := statusMismatchMsg currentStatus, newPath := none }, v)
    else
      let approvalLine := "- [" ++ timestamp ++ "] APPROVED by " ++ approver ++
        (match notes with
         | some n => if n = "" then "" else ": " ++ n
         | none => "")
      let c1 := updateTaskStatus task.rawContent TaskStatus.COMPLETED
      let c2 := addApprovalMetadata c1 approver timestamp
      let c3 := appendToExecutionLog c2 approvalLine
      let filename := date ++ "-" ++ task.id ++ ".md"
      let v1 : Vault :=
        { activeFile := emptyActiveContent
          completedFiles := (filename, c3) :: v.completedFiles }
      ({ success := true
         message := "Task " ++ task.id ++ " approved and moved to completed." ++ warningMessage
         newPath := some ("_orchestra/completed/" ++ filename) }, v1)

/-- `reject(task, rejector, reason)`. -/
def reject (task : ParsedTask) (rejector reason timestamp : String) (v : Vault) :
    RejectionResult × Vault :=
  if jsTrim reason = "" then
    ({ success := false, message := "Rejection requires a reason.", retryCount := none }, v)
  else
    match parseStatus task.metadata.status with
    | none =>
      ({ success := false, message := "Unknown task status: " ++ task.metadata.status
         retryCount := none }, v)
    | some _ =>
      let retryCount := getRetryCount task.rawContent + 1
      let rejectionLine := "- [" ++ timestamp ++ "] REJECTED by " ++ rejector ++ ": " ++ reason
      let c1 := updateTaskStatus task.rawContent TaskStatus.IN_PROGRESS
      let c2 := updateRetryCount c1 retryCount
      let c3 := appendToExecutionLog c2 rejectionLine
      ({ success := true
         message := "Task " ++ task.id ++ " rejected. Retry #" ++ natToDecimal retryCount ++
           ". Reason: " ++ reason
         retryCount := some retryCount }, { v with activeFile := c3 })

/-- `parseTask(content)`. -/
def parseTask (content : String) : ParsedTask :=
  let idTitle := parseTaskTitle content
  { id := idTitle.1
    title := idTitle.2
    metadata := parseMetadataTable content
    description := parseDescription content
    acceptanceCriteria := parseAcceptanceCriteria content
    executionLog := parseExecutionLog content
    rawContent := content
    contentHash := computeHash content }

/-! ## Vault monitor event handlers (`src/watcher/vault-monitor.ts`)

The monitor's per-event handlers are pure given the file content they
read; they are modelled as functions from the handler's input (the
notified file's current content) and the monitor state to the new state
and the list of emitted events.  A successful read is assumed (read
failures only emit `error` and leave the state unchanged). -/

inductive VMEvent where
  | taskActivated (task : ParsedTask)
  | taskUpdated (task : ParsedTask) (diff : TaskDiff)
  | taskQueued (task : QueuedTask)
  | taskCompleted (filename title : String)
  | taskBlocked (filename title : String)
deriving DecidableEq, Repr

structure MonitorState where
  lastActiveTask : Option ParsedTask
deriving DecidableEq, Repr

/-- `handleActiveChange()`: reparse the active file; no-op when the
content hash matches the last known task; otherwise emit at most one
lifecycle event for a meaningful diff and always replace the stored
task. -/
def handleActiveChange (st : MonitorState) (content : String) :
    MonitorState × List VMEvent :=
  let newTask := parseTask content
  match st.lastActiveTask with
  | some lastT =>
    if lastT.contentHash = newTask.contentHash then (st, [])
    else
      let diff := diffTasks (some lastT) newTask
      let events :=
        if hasMeaningfulChanges diff then
          if diff.isNewTask then [VMEvent.taskActivated newTask]
          else [VMEvent.taskUpdated newTask diff]
        else []
      ({ lastActiveTask := some newTask }, events)
  | none =>
    let diff := diffTasks none newTask
    let events :=
      if hasMeaningfulChanges diff then
        if diff.isNewTask then [VMEvent.taskActivated newTask]
        else [VMEvent.taskUpdated newTask diff]
      else []
    ({ lastActiveTask := some newTask }, events)

/-- The `QueuedTask` summary derived from a queue file. -/
def queuedSummary (filename content : String) : QueuedTask :=
  let task := parseTask content
  { filename := filename
    title := task.title
    project := task.metadata.project
    priority := task.metadata.priority }

/-- `handleNewQueuedTask(filePath)` — the handler run for every `add`
notification under the queue directory (dispatched by
`handleFileAdd`): parse the file and emit `taskQueued`.  It consults no
state and performs no deduplication. -/
def handleNewQueuedTask (filename content : String) : List VMEvent :=
  [VMEvent.taskQueued (queuedSummary filename content)]

/-! ## Process manager stop cycle (`src/executor/process-manager.ts`)

`stop(reason?)` registers a force-kill timer and a `once('close')`
listener on the child process, and is settled by whichever of the two
fires; the timer path does not remove the close listener.  The cycle is
modelled as an explicit state stepped by the two asynchronous events
`forceTimerFires` (the 10 s escalation timer elapses with the child
still alive) and `childCloses` (the OS reports the child's exit, which
runs the still-registered `close` listeners). -/

structure StopCycle where
  /-- `this.process !== null` -/
  hasProcess : Bool
  /-- the child OS process is alive -/
  childAlive : Bool
  /-- `stop`'s `once('close')` listener is registered -/
  onceCloseArmed : Bool
  /-- the force-kill timeout is armed -/
  forceTimerArmed : Bool
  /-- number of `stopped` emissions so far -/
  stoppedEmits : Nat
  /-- number of calls to the promise's `resolve` so far -/
  resolveCalls : Nat
deriving DecidableEq, Repr

/-- A running manager about to be stopped. -/
def runningCycle : StopCycle :=
  { hasProcess := true, childAlive := true, onceCloseArmed := false
    forceTimerArmed := false, stoppedEmits := 0, resolveCalls := 0 }

/-- The synchronous body of `stop()` while a process is running: arm
the force-kill timer, register the `once('close')` listener, send the
termination signal. -/
def stopCall (s : StopCycle) : StopCycle :=
  if s.hasProcess then
    { s with forceTimerArmed := true, onceCloseArmed := true }
  else s

/-- The force-kill timer fires: `SIGKILL` the process if still tracked,
run `cleanup()`, emit `stopped`, resolve.  The `once('close')` listener
is left registered. -/
def forceTimerFires (s : StopCycle) : StopCycle :=
  if s.forceTimerArmed then
    { s with forceTimerArmed := false, hasProcess := false
             stoppedEmits := s.stoppedEmits + 1
             resolveCalls := s.resolveCalls + 1 }
  else s

/-- The child process closes: the `once('close')` listener (when still
registered) clears the force-kill timer, runs `cleanup()`, emits
`stopped` and resolves, then unregisters itself. -/
def childCloses (s : StopCycle) : StopCycle :=
  if s.childAlive then
    let s := { s with childAlive := false, hasProcess := false }
    if s.onceCloseArmed then
      { s with onceCloseArmed := false, forceTimerArmed := false
               stoppedEmits := s.stoppedEmits + 1
               resolveCalls := s.resolveCalls + 1 }
    else s
  else s

/-- A graceful stop cycle: the child honours the termination signal and
closes before the escalation timer fires. -/
def gracefulStopTrace : StopCycle := childCloses (stopCall runningCycle)

/-- A forced stop cycle: the child ignores the termination signal, the
escalation timer fires and kills it, and the killed child then closes.
-/
def forcedStopTrace : StopCycle := childCloses (forceTimerFires (stopCall runningCycle))

/-! ## Stream buffer (`src/executor/stream-buffer.ts`)

`flush()` has a synchronous part (the empty-buffer early return, the
queue-while-in-flight branch, or handing the buffer to the sink) and an
asynchronous completion (the `finally` block after the awaited sink
call, which chains a follow-up flush for queued content).  The two are
modelled as separate steps; `stop()` awaits its own `flush()` call, so
the deliveries that happen before `stop` resolves are exactly the chain
started by that call. -/

structure SBOptions where
  flushIntervalMs : Nat
  maxBufferSize : Nat
deriving DecidableEq, Repr

structure SBState where
  buffer : String
  timerOn : Bool
  isFlushing : Bool
  pendingFlush : Option String
deriving DecidableEq, Repr

def sbInitial : SBState :=
  { buffer := "", timerOn := false, isFlushing := false, pendingFlush := none }

/-- The synchronous part of `flush()`: returns the new state and the
content handed to the sink, if a delivery starts. -/
def flushStart (s : SBState) : SBState × Option String :=
  if s.buffer = "" then (s, none)
  else if s.isFlushing then
    ({ s with pendingFlush := some ((s.pendingFlush.getD "") ++ s.buffer), buffer := "" }, none)
  else
    ({ s with isFlushing := true, buffer := "" }, some s.buffer)

/-- The `finally` block run when an awaited sink delivery settles:
clear `isFlushing`; when content was queued, move it into the buffer
(overwriting it, as the source does) and run the follow-up `flush()`,
whose own delivery (if any) is returned. -/
def onFlushSettled (s : SBState) : SBState × Option String :=
  let s := { s with isFlushing := false }
  match s.pendingFlush with
  | none => (s, none)
  | some p => flushStart { s with pendingFlush := none, buffer := p }

/-- `append(chunk)`: extend the buffer and force a synchronous flush
when the size threshold is reached. -/
def sbAppend (o : SBOptions) (s : SBState) (chunk : String) : SBState × Option String :=
  let s := { s with buffer := s.buffer ++ chunk }
  if s.buffer.length ≥ o.maxBufferSize then flushStart s else (s, none)

/-- `start()`. -/
def sbStart (s : SBState) : SBState := { s with timerOn := true }

/-- `stop()`: cancel the interval timer, then `await flush()`.  Returns
the final state and the list of sink deliveries that complete before
the returned promise resolves — the delivery started by this `flush()`
call and the chained follow-up for content queued behind it (the chain
is at most two deep: the follow-up starts with an empty queue). -/
def sbStop (s : SBState) : SBState × List String :=
  let s := { s with timerOn := false }
  match flushStart s with
  | (s1, none) => (s1, [])
  | (s1, some c1) =>
    match onFlushSettled s1 with
    | (s2, none) => (s2, [c1])
    | (s2, some c2) =>
      let s3 := (onFlushSettled s2).1
      (s3, [c1, c2])

/-! ## Shared concrete inputs for witnesses -/

/-- A concrete parsed task in `PENDING_REVIEW` (the reviewed fixture of
the repository's own approval tests). -/
def sampleTask : ParsedTask :=
  { id := "TEST-001"
    title := "Test Task"
    metadata := { metadataDefaults with status := "PENDING_REVIEW", project := "test-project" }
    description := "Test description"
    acceptanceCriteria := [⟨"Criterion 1", true⟩, ⟨"Criterion 2", true⟩]
    executionLog := ["[2026-01-05] Started"]
    rawContent := "# Task: TEST-001 - Test Task\n\n## Metadata\n| Field | Value |\n|-------|-------|\n| Status | PENDING_REVIEW |\n| Project | test-project |\n\n## Execution Log\n\n- [2026-01-05] Started\n"
    contentHash := "abc123" }

def sampleVault : Vault := { activeFile := sampleTask.rawContent, completedFiles := [] }

/-! ## C5: repeated rejection inputs

The repeated-rejection scenario is modelled by re-parsing the written
active file before each call, with the fixed rejector `u`, reason `r`
and timestamp `T` (their values do not influence the counter logic).
`mkDocData` is the document shape reached after at least one rejection
of the standard document `stdTaskDoc`: status `IN_PROGRESS`, a retry
counter of `k`, and `m` rejection lines in the execution log. -/

/-- One reject call on the current active document, returning the
reported retry count and the written document. -/
def rejectStepDoc (doc : String) : Option Nat × String :=
  let r := reject (parseTask doc) "u" "r" "T" { activeFile := doc, completedFiles := [] }
  (r.1.retryCount, r.2.activeFile)

/-- The retry counts reported by `n` repeated rejections starting from
`doc`, each call reading the document the previous call wrote. -/
def rejectIter : Nat → String → List (Option Nat)
  | 0, _ => []
  | n + 1, doc =>
    let p := rejectStepDoc doc
    p.1 :: rejectIter n p.2

/-- A standard task document without a retry counter. -/
def stdTaskDoc : String := "| Status | PENDING_REVIEW |\n\n## Execution Log\n"

/-- The audit line `- [${timestamp}] REJECTED by ${rejector}: ${reason}`
for the fixed inputs. -/
def entryStr : String := "- [T] REJECTED by u: r"

/-- `m` rejection lines, each preceded by the newline that
`appendToExecutionLog` inserts. -/
def blockData : Nat → List Char
  | 0 => []
  | m + 1 => '\n' :: (entryStr.data ++ blockData m)

/-- The document after some rejections: segments are written out
explicitly around the pipes so that the pipe scanners compute
directly. -/
def mkDocData (k m : Nat) : List Char :=
  '|' :: (" Status ".data ++ '|' :: (" IN_PROGRESS ".data ++ '|' ::
    ('\n' :: '|' :: (" Retry Count ".data ++ '|' ::
      ((' ' :: ((natToDecimal k).data ++ [' '])) ++ '|' ::
        ("\n\n## Execution Log\n".data ++ blockData m))))))

def mkDoc (k m : Nat) : String := ⟨mkDocData k m⟩

/-- A document with no insertion anchor for the retry counter: its
status row is followed by text rather than a blank line or heading. -/
def c5doc : String := "| Status | PENDING_REVIEW |\nx"

def c5step1 : RejectionResult × Vault :=
  reject (parseTask c5doc) "u" "r" "T" { activeFile := c5doc, completedFiles := [] }

def c5step2 : RejectionResult × Vault :=
  reject (parseTask c5step1.2.activeFile) "u" "r" "T" c5step1.2

/-! ## Concrete fixtures used by the claim theorems -/

/-- A concrete input refuting C1 as stated: a task in `IN_PROGRESS`
whose single acceptance criterion is completed. -/
def c1Task : ParsedTask :=
  { id := "T1"
    title := "T"
    metadata := { metadataDefaults with status := "IN_PROGRESS" }
    description := ""
    acceptanceCriteria := [⟨"a", true⟩]
    executionLog := []
    rawContent := "| Status | IN_PROGRESS |\n\n## Execution Log\n"
    contentHash := "h" }

def c1Vault : Vault := { activeFile := c1Task.rawContent, completedFiles := [] }

/-- C7 counterexample: a parser-produced task with two criteria sharing
the same text but different completion flags; diffing it against the
very same record reports a criteria change (the criteria map keeps only
the last flag per text), so `hasMeaningfulChanges (diffTasks T T)` is
true. -/
def c7doc : String := "## Acceptance Criteria\n- [ ] a\n- [x] a\n"

/-- The trimmed `(field, value)` pairs of all table rows, with field
names lower-cased — the values seen by the `fieldMappings` loop. -/
def normalizedRows (content : String) : List (String × String) :=
  (scanRows content.data).map fun r =>
    (asciiLower (jsTrimList r.1).asString, (jsTrimList r.2).asString)

/-- The values of all rows naming a given (lower-case) field. -/
def rowFieldValues (key : String) (content : String) : List String :=
  (normalizedRows content).filterMap fun r => if r.1 = key then some r.2 else none

/-- A queue-directory task document. -/
def c4doc : String :=
  "# Task: Q-1 - Queued\n\n| Status | IN_PROGRESS |\n| Project | p |\n| Priority | high |\n"

/-- Options with a small threshold (the repository's own stream-buffer
test configuration). -/
def c8Opts : SBOptions := { flushIntervalMs := 100000, maxBufferSize := 5 }

/-- A started buffer that hit the size threshold (delivery in flight)
and then received another small chunk. -/
def c8Inflight : SBState :=
  (sbAppend c8Opts ((sbAppend c8Opts (sbStart sbInitial) "12345").1) "AB").1

/-- An idle started buffer holding unflushed content. -/
def c8Idle : SBState :=
  { buffer := "hello", timerOn := true, isFlushing := false, pendingFlush := none }

/-! ## Claims -/

/-! ## Basic properties of the scanners -/

theorem takeWhile_length_le {α : Type} (p : α → Bool) (cs : List α) :
    (cs.takeWhile p).length ≤ cs.length := by
  induction cs with
  | nil => simp [List.takeWhile]
  | cons c cs ih =>
    simp only [List.takeWhile]
    split
    · simpa using ih
    · simp

theorem dropWhile_length_le {α : Type} (p : α → Bool) (cs : List α) :
    (cs.dropWhile p).length ≤ cs.length := by
  induction cs with
  | nil => simp [List.dropWhile]
  | cons c cs ih =>
    simp only [List.dropWhile]
    split
    · exact Nat.le_succ_of_le ih
    · exact Nat.le_refl _

theorem pipeSegs_ne_nil (cs : List Char) : pipeSegs cs ≠ [] := by
  match cs with
  | [] => simp [pipeSegs]
  | c :: cs =>
    simp only [pipeSegs]
    split
    · simp
    · match h : pipeSegs cs with
      | [] => simp
      | s :: rest => simp

theorem joinSegs_pipeSegs (cs : List Char) : joinSegs (pipeSegs cs) = cs := by
  induction cs with
  | nil => simp [pipeSegs, joinSegs]
  | cons c cs ih =>
    simp only [pipeSegs]
    split
    · rename_i hc
      match h : pipeSegs cs with
      | [] => exact absurd h (pipeSegs_ne_nil cs)
      | s :: rest =>
        rw [h] at ih
        simp only [joinSegs]
        match rest with
        | [] => simp only [joinSegs] at ih ⊢; simp [hc, ih]
        | r :: rs => simp only [joinSegs] at ih ⊢; simp [hc, ih]
    · match h : pipeSegs cs with
      | [] => exact absurd h (pipeSegs_ne_nil cs)
      | s :: rest =>
        rw [h] at ih
        match rest with
        | [] => simp only [joinSegs] at ih ⊢; simp [ih]
        | r :: rs => simp only [joinSegs] at ih ⊢; simp [ih]

theorem wsThenRestOfLine_le {cs cap : List Char} {n : Nat}
    (h : wsThenRestOfLine cs = some (cap, n)) : n ≤ cs.length := by
  simp only [wsThenRestOfLine] at h
  split at h
  · simp only [Option.some.injEq, Prod.mk.injEq] at h
    have t1 : (cs.takeWhile isJsSpace).length ≤ cs.length :=
      takeWhile_length_le _ cs
    have t2 : ((cs.drop (cs.takeWhile isJsSpace).length).takeWhile
        (fun c => c ≠ '\n')).length ≤
        (cs.drop (cs.takeWhile isJsSpace).length).length :=
      takeWhile_length_le _ _
    rw [List.length_drop] at t2
    omega
  · split at h
    · exact absurd h (by simp)
    · simp only [Option.some.injEq, Prod.mk.injEq] at h
      have t1 : (cs.takeWhile isJsSpace).length ≤ cs.length :=
        takeWhile_length_le _ cs
      omega

theorem checkboxAt_pos {cs : List Char} {f : Char} {cap : List Char} {n : Nat}
    (h : checkboxAt cs = some (f, cap, n)) : 0 < n ∧ n ≤ cs.length := by
  match cs with
  | [] => simp [checkboxAt] at h
  | [a] => simp [checkboxAt] at h
  | [a, b] => simp [checkboxAt] at h
  | [a, b, c] => simp [checkboxAt] at h
  | [a, b, c, d] => simp [checkboxAt] at h
  | a :: b :: c :: d :: e :: rest =>
    simp only [checkboxAt] at h
    split at h
    · match h2 : wsThenRestOfLine rest with
      | none => simp [h2] at h
      | some (cap2, n2) =>
        simp only [h2, Option.map_some', Option.some.injEq, Prod.mk.injEq] at h
        have hb : n2 ≤ rest.length := wsThenRestOfLine_le h2
        refine ⟨by omega, ?_⟩
        simp only [List.length_cons]
        omega
    · simp at h


/-- C2: for every pair of statuses (A, B), `canTransition A B` is true
exactly when (A, B) is in the fixed transition table
IN_PROGRESS→{EXECUTING, BLOCKED}, EXECUTING→{IN_PROGRESS,
PENDING_REVIEW}, PENDING_REVIEW→{COMPLETED, IN_PROGRESS},
BLOCKED→{IN_PROGRESS}; in particular COMPLETED has no outgoing
transition. -/
theorem C2_canTransition_matches_table :
    (∀ a b : TaskStatus, canTransition a b = true ↔
      (a, b) ∈ ([(.IN_PROGRESS, .EXECUTING), (.IN_PROGRESS, .BLOCKED),
        (.EXECUTING, .IN_PROGRESS), (.EXECUTING, .PENDING_REVIEW),
        (.PENDING_REVIEW, .COMPLETED), (.PENDING_REVIEW, .IN_PROGRESS),
        (.BLOCKED, .IN_PROGRESS)] : List (TaskStatus × TaskStatus))) ∧
    (∀ b : TaskStatus, canTransition .COMPLETED b = false) := by
  decide

/-- C3: in a forced stop cycle (the child ignores the termination
signal, the escalation timer fires and kills it, and the killed child
then closes) the code emits `stopped` twice and calls the promise's
`resolve` twice — the `once('close')` listener is still registered when
the timer path has already emitted and resolved.  The graceful cycle
emits and resolves exactly once. -/
theorem C3_forced_stop_emits_stopped_twice :
    forcedStopTrace.stoppedEmits = 2 ∧ forcedStopTrace.resolveCalls = 2 ∧
    gracefulStopTrace.stoppedEmits = 1 ∧ gracefulStopTrace.resolveCalls = 1 := by
  decide

/-- C6: `reject` with an empty or whitespace-only reason fails with the
reason-required message and leaves the vault (in particular the active
task file) unchanged. -/
theorem C6_reject_blank_reason_no_write (task : ParsedTask)
    (rejector reason timestamp : String) (v : Vault) (h : jsTrim reason = "") :
    (reject task rejector reason timestamp v).1.success = false ∧
    (reject task rejector reason timestamp v).1.message = "Rejection requires a reason." ∧
    (reject task rejector reason timestamp v).2 = v := by
  simp [reject, h]

theorem C6_witness :
    jsTrim "   " = "" ∧
    ((reject sampleTask "user#1234" "   " "TS" sampleVault).1.success = false ∧
     (reject sampleTask "user#1234" "   " "TS" sampleVault).1.message =
       "Rejection requires a reason." ∧
     (reject sampleTask "user#1234" "   " "TS" sampleVault).2 = sampleVault) :=
  ⟨by decide, C6_reject_blank_reason_no_write sampleTask "user#1234" "   " "TS" sampleVault (by decide)⟩

/-- C10: for every task whose status parses to an enum member other
than PENDING_REVIEW and whose acceptance-criteria list is empty,
`approve` fails with the status-mismatch message:
`allCriteriaCompleted` requires a non-empty list, and no status other
than PENDING_REVIEW may transition to COMPLETED. -/
theorem C10_empty_criteria_never_approvable (task : ParsedTask) (approver : String)
    (notes : Option String) (timestamp date : String) (v : Vault) (s : TaskStatus)
    (h1 : parseStatus task.metadata.status = some s)
    (h2 : s ≠ TaskStatus.PENDING_REVIEW)
    (h3 : task.acceptanceCriteria = []) :
    (approve task approver notes timestamp date v).1.success = false ∧
    (approve task approver notes timestamp date v).1.message = statusMismatchMsg s := by
  have hc : canTransition s TaskStatus.COMPLETED = false := by
    cases s <;> simp_all <;> decide
  simp [approve, h1, h2, hc, allCriteriaCompleted, h3]

/-- Only `PENDING_REVIEW` may transition to `COMPLETED`, so the
`canTransition(currentStatus, COMPLETED)` guard inside `approve` can
never rescue a non-`PENDING_REVIEW` status. -/
theorem canTransition_to_completed_iff (s : TaskStatus) :
    canTransition s TaskStatus.COMPLETED = true ↔ s = TaskStatus.PENDING_REVIEW := by
  cases s <;> simp [canTransition, validTransitions]

/-- C1 counterexample: `approve` succeeds on a task whose status is
`IN_PROGRESS` (not `PENDING_REVIEW`) with all criteria completed, even
though the state machine permits no direct transition from
`IN_PROGRESS` to `COMPLETED` — so "status is PENDING_REVIEW, or all
criteria completed and the state machine permits a direct transition
to COMPLETED" is not necessary for success. -/
theorem C1_counterexample :
    (approve c1Task "approver" none "TS" "2026-01-06" c1Vault).1.success = true ∧
    parseStatus c1Task.metadata.status = some TaskStatus.IN_PROGRESS ∧
    ¬ (TaskStatus.IN_PROGRESS = TaskStatus.PENDING_REVIEW ∨
       (allCriteriaCompleted c1Task = true ∧
        canTransition TaskStatus.IN_PROGRESS TaskStatus.COMPLETED = true)) := by
  decide

/-- C1 (amended): for every task whose status parses to an enum member
`s`, `approve` succeeds (the model file writes always succeed) exactly
when `s` is `PENDING_REVIEW` or all acceptance criteria (at least one)
are completed; the `canTransition(s, COMPLETED)` fallback is consulted
only when both checks fail, where it never holds. -/
theorem C1_approve_success_iff (task : ParsedTask) (approver : String)
    (notes : Option String) (timestamp date : String) (v : Vault) (s : TaskStatus)
    (h : parseStatus task.metadata.status = some s) :
    (approve task approver notes timestamp date v).1.success = true ↔
      (s = TaskStatus.PENDING_REVIEW ∨ allCriteriaCompleted task = true) := by
  simp only [approve, h]
  split
  next hcond =>
    simp only [Bool.and_eq_true, decide_eq_true_eq, Bool.not_eq_true'] at hcond
    simp only [Bool.false_eq_true, false_iff]
    push_neg
    exact ⟨hcond.1.1, by simpa using hcond.1.2⟩
  next hcond =>
    simp only [Bool.and_eq_true, decide_eq_true_eq, Bool.not_eq_true'] at hcond
    simp only [true_iff]
    by_cases hs : s = TaskStatus.PENDING_REVIEW
    · exact Or.inl hs
    · by_cases hc : allCriteriaCompleted task = true
      · exact Or.inr hc
      · exfalso
        apply hcond
        refine ⟨⟨hs, by simpa using hc⟩, ?_⟩
        simp only [Bool.not_eq_true]
        by_contra hcan
        simp only [Bool.not_eq_false] at hcan
        exact hs ((canTransition_to_completed_iff s).mp hcan)

theorem C1_witness :
    parseStatus sampleTask.metadata.status = some TaskStatus.PENDING_REVIEW ∧
    ((approve sampleTask "user#1234" none "TS" "2026-01-06" sampleVault).1.success = true ↔
      (TaskStatus.PENDING_REVIEW = TaskStatus.PENDING_REVIEW ∨
       allCriteriaCompleted sampleTask = true)) :=
  ⟨by decide,
   C1_approve_success_iff sampleTask "user#1234" none "TS" "2026-01-06" sampleVault
     TaskStatus.PENDING_REVIEW (by decide)⟩

/-- A value found in the criteria map comes from some criterion of the
list with that text. -/
theorem criteriaMapGet_aux {t : String} {b : Bool} :
    ∀ (l : List AcceptanceCriterion) (acc : Option Bool),
      l.foldl (fun acc c => if c.text = t then some c.completed else acc) acc = some b →
      (∃ c ∈ l, c.text = t ∧ c.completed = b) ∨ acc = some b := by
  intro l
  induction l with
  | nil => intro acc h; exact Or.inr h
  | cons c l ih =>
    intro acc h
    simp only [List.foldl_cons] at h
    rcases ih _ h with h1 | h1
    · obtain ⟨c', hc', h2⟩ := h1
      exact Or.inl ⟨c', List.mem_cons_of_mem _ hc', h2⟩
    · by_cases hct : c.text = t
      · rw [if_pos hct] at h1
        simp only [Option.some.injEq] at h1
        exact Or.inl ⟨c, List.mem_cons_self _ _, hct, h1⟩
      · rw [if_neg hct] at h1
        exact Or.inr h1

theorem criteriaMapGet_some {l : List AcceptanceCriterion} {t : String} {b : Bool}
    (h : criteriaMapGet l t = some b) : ∃ c ∈ l, c.text = t ∧ c.completed = b := by
  rcases criteriaMapGet_aux l none h with h1 | h1
  · exact h1
  · simp at h1

theorem C7_counterexample :
    parseAcceptanceCriteria c7doc = [⟨"a", false⟩, ⟨"a", true⟩] ∧
    hasMeaningfulChanges (diffTasks (some (parseTask c7doc)) (parseTask c7doc)) = true := by
  decide

/-- C7 (amended): diffing a task against itself yields no meaningful
change provided criteria texts are duplicate-consistent (any two
criteria with equal text agree on completion — in particular whenever
criteria are unique by text, as the data model intends). -/
theorem C7_diff_self_no_changes (T : ParsedTask)
    (hcons : ∀ c1 ∈ T.acceptanceCriteria, ∀ c2 ∈ T.acceptanceCriteria,
      c1.text = c2.text → c1.completed = c2.completed) :
    hasMeaningfulChanges (diffTasks (some T) T) = false := by
  have hcc : (T.acceptanceCriteria.filterMap fun c =>
      match criteriaMapGet T.acceptanceCriteria c.text with
      | some oldCompleted =>
        if oldCompleted ≠ c.completed then
          some { text := c.text, oldCompleted := oldCompleted,
                 newCompleted := c.completed : ChangedCriterion }
        else none
      | none => none) = [] := by
    rw [List.filterMap_eq_nil_iff]
    intro c hc
    match hm : criteriaMapGet T.acceptanceCriteria c.text with
    | none => rfl
    | some b =>
      obtain ⟨c', hc', ht, hb⟩ := criteriaMapGet_some hm
      have heq : b = c.completed := hb ▸ hcons c' hc' c hc ht
      simp [heq]
  have hlog : (T.executionLog.filter fun e => ¬ T.executionLog.contains e) = [] := by
    rw [List.filter_eq_nil_iff]
    intro e he
    simp
    exact he
  simp only [diffTasks, hasMeaningfulChanges, hcc, hlog]
  simp

theorem C7_witness :
    (∀ c1 ∈ sampleTask.acceptanceCriteria, ∀ c2 ∈ sampleTask.acceptanceCriteria,
      c1.text = c2.text → c1.completed = c2.completed) ∧
    hasMeaningfulChanges (diffTasks (some sampleTask) sampleTask) = false :=
  ⟨by decide, C7_diff_self_no_changes sampleTask (by decide)⟩

theorem parseMetadataTable_eq_foldl (content : String) :
    parseMetadataTable content =
      (normalizedRows content).foldl (fun m r => applyMetadataRow m r.1 r.2)
        metadataDefaults := by
  simp [parseMetadataTable, normalizedRows, List.foldl_map]

theorem getLast?_getD_cons {α : Type} :
    ∀ (l : List α) (a d : α), ((a :: l).getLast?).getD d = (l.getLast?).getD a := by
  intro l
  induction l with
  | nil => intro a d; rfl
  | cons b l ih =>
    intro a d
    rw [List.getLast?_cons_cons, ih b d, ih b a]

/-- The metadata fold keeps, for each field, the last recognized row's
value over the given start value. -/
theorem foldl_applyRow_proj (proj : TaskMetadata → String) (key : String)
    (hstep : ∀ m f v, proj (applyMetadataRow m f v) = if f = key then v else proj m) :
    ∀ (l : List (String × String)) (m : TaskMetadata),
      proj (l.foldl (fun mm r => applyMetadataRow mm r.1 r.2) m) =
        ((l.filterMap fun r => if r.1 = key then some r.2 else none).getLast?).getD (proj m) := by
  intro l
  induction l with
  | nil => intro m; rfl
  | cons r l ih =>
    intro m
    simp only [List.foldl_cons, List.filterMap_cons]
    by_cases hk : r.1 = key
    · simp only [if_pos hk]
      rw [ih, hstep, if_pos hk, getLast?_getD_cons]
    · simp only [if_neg hk]
      rw [ih, hstep, if_neg hk]

theorem applyMetadataRow_status (m : TaskMetadata) (f v : String) :
    (applyMetadataRow m f v).status = if f = "status" then v else m.status := by
  unfold applyMetadataRow; split_ifs <;> rfl

theorem applyMetadataRow_project (m : TaskMetadata) (f v : String) :
    (applyMetadataRow m f v).project = if f = "project" then v else m.project := by
  unfold applyMetadataRow; split_ifs <;> first | rfl | (rename_i h1 h2; exact absurd (h1 ▸ h2) (by decide))

theorem applyMetadataRow_trustLevel (m : TaskMetadata) (f v : String) :
    (applyMetadataRow m f v).trustLevel = if f = "trust level" then v else m.trustLevel := by
  unfold applyMetadataRow; split_ifs <;> first | rfl | (rename_i h1 h2; exact absurd (h1 ▸ h2) (by decide))

theorem applyMetadataRow_priority (m : TaskMetadata) (f v : String) :
    (applyMetadataRow m f v).priority = if f = "priority" then v else m.priority := by
  unfold applyMetadataRow; split_ifs <;> first | rfl | (rename_i h1 h2; exact absurd (h1 ▸ h2) (by decide))

theorem applyMetadataRow_created (m : TaskMetadata) (f v : String) :
    (applyMetadataRow m f v).created = if f = "created" then v else m.created := by
  unfold applyMetadataRow; split_ifs <;> first | rfl | (rename_i h1 h2; exact absurd (h1 ▸ h2) (by decide))

theorem applyMetadataRow_activated (m : TaskMetadata) (f v : String) :
    (applyMetadataRow m f v).activated = if f = "activated" then v else m.activated := by
  unfold applyMetadataRow; split_ifs <;> first | rfl | (rename_i h1 h2; exact absurd (h1 ▸ h2) (by decide))

theorem applyMetadataRow_branch (m : TaskMetadata) (f v : String) :
    (applyMetadataRow m f v).branch = if f = "branch" then v else m.branch := by
  unfold applyMetadataRow; split_ifs <;> first | rfl | (rename_i h1 h2; exact absurd (h1 ▸ h2) (by decide))

theorem applyMetadataRow_repoPath (m : TaskMetadata) (f v : String) :
    (applyMetadataRow m f v).repoPath = if f = "repo path" then v else m.repoPath := by
  unfold applyMetadataRow; split_ifs <;> first | rfl | (rename_i h1 h2; exact absurd (h1 ▸ h2) (by decide))

/-- C9 counterexample: the parser stores a status value outside the
closed enum verbatim — `| Status | BANANA |` parses to status
`"BANANA"`, which is neither `UNKNOWN` nor any enum member (and
`parseStatus` rejects it). -/
theorem C9_counterexample :
    (parseMetadataTable "| Status | BANANA |").status = "BANANA" ∧
    parseStatus "BANANA" = none ∧
    "BANANA" ≠ "UNKNOWN" ∧
    (∀ st : TaskStatus, st.toStr ≠ "BANANA") := by
  decide

/-- C9 (amended): the parser does not validate the status against the
enum — every metadata field, status included, stores the last matching
row's trimmed value verbatim; status defaults to `"UNKNOWN"` and every
other field to `""` when no row names it.  (Enum validation happens in
the consumers, via `parseStatus`.) -/
theorem C9_metadata_fields_verbatim (content : String) :
    (parseMetadataTable content).status =
      ((rowFieldValues "status" content).getLast?).getD "UNKNOWN" ∧
    (parseMetadataTable content).project =
      ((rowFieldValues "project" content).getLast?).getD "" ∧
    (parseMetadataTable content).trustLevel =
      ((rowFieldValues "trust level" content).getLast?).getD "" ∧
    (parseMetadataTable content).priority =
      ((rowFieldValues "priority" content).getLast?).getD "" ∧
    (parseMetadataTable content).created =
      ((rowFieldValues "created" content).getLast?).getD "" ∧
    (parseMetadataTable content).activated =
      ((rowFieldValues "activated" content).getLast?).getD "" ∧
    (parseMetadataTable content).branch =
      ((rowFieldValues "branch" content).getLast?).getD "" ∧
    (parseMetadataTable content).repoPath =
      ((rowFieldValues "repo path" content).getLast?).getD "" := by
  rw [parseMetadataTable_eq_foldl]
  refine ⟨?_, ?_, ?_, ?_, ?_, ?_, ?_, ?_⟩
  · rw [foldl_applyRow_proj _ "status" applyMetadataRow_status]; rfl
  · rw [foldl_applyRow_proj _ "project" applyMetadataRow_project]; rfl
  · rw [foldl_applyRow_proj _ "trust level" applyMetadataRow_trustLevel]; rfl
  · rw [foldl_applyRow_proj _ "priority" applyMetadataRow_priority]; rfl
  · rw [foldl_applyRow_proj _ "created" applyMetadataRow_created]; rfl
  · rw [foldl_applyRow_proj _ "activated" applyMetadataRow_activated]; rfl
  · rw [foldl_applyRow_proj _ "branch" applyMetadataRow_branch]; rfl
  · rw [foldl_applyRow_proj _ "repo path" applyMetadataRow_repoPath]; rfl

/-- C4 counterexample: two sequential add-notifications for the same
queue file with byte-identical content produce two `taskQueued`
emissions — `handleNewQueuedTask` consults no state and performs no
path+hash deduplication. -/
theorem C4_counterexample :
    handleNewQueuedTask "task.md" c4doc ++ handleNewQueuedTask "task.md" c4doc =
      [VMEvent.taskQueued (queuedSummary "task.md" c4doc),
       VMEvent.taskQueued (queuedSummary "task.md" c4doc)] ∧
    (handleNewQueuedTask "task.md" c4doc ++ handleNewQueuedTask "task.md" c4doc).length = 2 := by
  decide

/-- C4 (amended): content-hash deduplication exists only on the
active-file change path — `handleActiveChange` is a no-op (no emission,
state unchanged) when the reparsed content's hash equals the stored
task's hash — while every queue-directory add-notification emits
exactly one `taskQueued`, with no deduplication. -/
theorem C4_dedup_active_only :
    (∀ (st : MonitorState) (c : String) (t : ParsedTask),
      st.lastActiveTask = some t → t.contentHash = (parseTask c).contentHash →
      handleActiveChange st c = (st, [])) ∧
    (∀ filename content : String,
      handleNewQueuedTask filename content =
        [VMEvent.taskQueued (queuedSummary filename content)]) := by
  constructor
  · intro st c t h1 h2
    simp [handleActiveChange, h1, h2]
  · intro filename content
    rfl

theorem C4_witness :
    ({ lastActiveTask := some (parseTask c4doc) } : MonitorState).lastActiveTask =
      some (parseTask c4doc) ∧
    (parseTask c4doc).contentHash = (parseTask c4doc).contentHash ∧
    handleActiveChange { lastActiveTask := some (parseTask c4doc) } c4doc =
      ({ lastActiveTask := some (parseTask c4doc) }, []) :=
  ⟨rfl, rfl,
   C4_dedup_active_only.1 { lastActiveTask := some (parseTask c4doc) } c4doc
     (parseTask c4doc) rfl rfl⟩

theorem C10_witness :
    parseStatus "IN_PROGRESS" = some TaskStatus.IN_PROGRESS ∧
    TaskStatus.IN_PROGRESS ≠ TaskStatus.PENDING_REVIEW ∧
    ((approve { sampleTask with
        metadata := { sampleTask.metadata with status := "IN_PROGRESS" }
        acceptanceCriteria := [] } "user#1234" none "TS" "2026-01-06" sampleVault).1.success = false ∧
     (approve { sampleTask with
        metadata := { sampleTask.metadata with status := "IN_PROGRESS" }
        acceptanceCriteria := [] } "user#1234" none "TS" "2026-01-06" sampleVault).1.message =
       statusMismatchMsg TaskStatus.IN_PROGRESS) :=
  ⟨by decide, by decide,
    C10_empty_criteria_never_approvable _ "user#1234" none "TS" "2026-01-06" sampleVault
      TaskStatus.IN_PROGRESS (by decide) (by decide) rfl⟩

/-- C8 counterexample: when a flush is in flight, `stop` on a non-empty
buffer queues the content instead of flushing it — no delivery happens
before `stop` resolves, refuting "exactly one final flush … completes
before stop resolves" for every state. -/
theorem C8_counterexample :
    c8Inflight.buffer = "AB" ∧ c8Inflight.isFlushing = true ∧
    (sbStop c8Inflight).2 = [] ∧
    (sbStop c8Inflight).1.pendingFlush = some "AB" := by
  decide

/-- C8 (amended): `stop` always cancels the interval timer.  When no
flush is in flight it performs exactly one final delivery of the whole
remaining buffer before resolving if the buffer is non-empty, and none
if it is empty.  When a flush is in flight, no delivery happens before
`stop` resolves: the remaining content is queued behind the in-flight
flush (appended to any already-queued content) and delivered only after
it settles. -/
theorem C8_stop_final_flush :
    (∀ s : SBState, s.isFlushing = false → s.pendingFlush = none →
      (sbStop s).1.timerOn = false ∧
      (sbStop s).2 = (if s.buffer = "" then [] else [s.buffer])) ∧
    (∀ s : SBState, s.isFlushing = true → s.buffer ≠ "" →
      (sbStop s).1.timerOn = false ∧
      (sbStop s).2 = [] ∧
      (sbStop s).1.pendingFlush = some ((s.pendingFlush.getD "") ++ s.buffer)) := by
  constructor
  · intro s h1 h2
    by_cases hb : s.buffer = ""
    · simp [sbStop, flushStart, hb]
    · simp [sbStop, flushStart, onFlushSettled, hb, h1, h2]
  · intro s h1 hb
    simp [sbStop, flushStart, onFlushSettled, hb, h1]

theorem C8_witness :
    (c8Idle.isFlushing = false ∧
     (sbStop c8Idle).1.timerOn = false ∧
     (sbStop c8Idle).2 = (if c8Idle.buffer = "" then [] else [c8Idle.buffer])) ∧
    (c8Inflight.isFlushing = true ∧
     (sbStop c8Inflight).2 = [] ∧
     (sbStop c8Inflight).1.pendingFlush =
       some ((c8Inflight.pendingFlush.getD "") ++ c8Inflight.buffer)) :=
  ⟨⟨rfl,
    (C8_stop_final_flush.1 c8Idle rfl rfl).1,
    (C8_stop_final_flush.1 c8Idle rfl rfl).2⟩,
   ⟨rfl,
    (C8_stop_final_flush.2 c8Inflight rfl (by decide)).2.1,
    (C8_stop_final_flush.2 c8Inflight rfl (by decide)).2.2⟩⟩

/-! ## C5 supporting lemmas -/

theorem natToDecimalAux_spec :
    ∀ (fuel n : Nat), n < fuel →
      (∀ c ∈ natToDecimalAux fuel n, isAsciiDigit c = true) ∧
      natToDecimalAux fuel n ≠ [] ∧
      digitsToNat (natToDecimalAux fuel n) = n := by
  intro fuel
  induction fuel with
  | zero => intro n h; omega
  | succ fuel ih =>
    intro n _
    by_cases h10 : n < 10
    · simp only [natToDecimalAux, if_pos h10]
      interval_cases n <;> refine ⟨by decide, by decide, by decide⟩
    · obtain ⟨ha, hne, hval⟩ := ih (n / 10) (by omega)
      simp only [natToDecimalAux, if_neg h10]
      have hr10 : n % 10 < 10 := Nat.mod_lt _ (by omega)
      have hdig : isAsciiDigit (Char.ofNat (48 + n % 10)) = true := by
        set r := n % 10 with hr
        interval_cases r <;> decide
      have htn : (Char.ofNat (48 + n % 10)).toNat - 48 = n % 10 := by
        set r := n % 10 with hr
        interval_cases r <;> decide
      refine ⟨?_, by simp [hne], ?_⟩
      · intro c hc
        rcases List.mem_append.mp hc with hc1 | hc1
        · exact ha c hc1
        · simp only [List.mem_singleton] at hc1
          rw [hc1]; exact hdig
      · unfold digitsToNat
        rw [List.foldl_append]
        unfold digitsToNat at hval
        simp only [List.foldl_cons, List.foldl_nil]
        rw [hval, htn]
        omega

theorem natDigits_all (k : Nat) :
    ∀ c ∈ (natToDecimal k).data, isAsciiDigit c = true :=
  (natToDecimalAux_spec (k + 1) k (by omega)).1

theorem natDigits_ne_nil (k : Nat) : (natToDecimal k).data ≠ [] :=
  (natToDecimalAux_spec (k + 1) k (by omega)).2.1

theorem natDigits_val (k : Nat) : digitsToNat (natToDecimal k).data = k :=
  (natToDecimalAux_spec (k + 1) k (by omega)).2.2

/-- A decimal digit is not a pipe, hash, dash, bracket or newline, and
is not whitespace. -/
theorem digit_char_props {c : Char} (h : isAsciiDigit c = true) :
    c ≠ '|' ∧ c ≠ '#' ∧ c ≠ '\n' ∧ c ≠ '-' ∧ isJsSpace c = false := by
  simp only [isAsciiDigit, Bool.and_eq_true, decide_eq_true_eq] at h
  refine ⟨?_, ?_, ?_, ?_, ?_⟩
  · intro he; rw [he] at h; have : ('|').toNat = 124 := rfl; omega
  · intro he; rw [he] at h; have : ('#').toNat = 35 := rfl; omega
  · intro he; rw [he] at h; have : ('\n').toNat = 10 := rfl; omega
  · intro he; rw [he] at h; have : ('-').toNat = 45 := rfl; omega
  · simp only [isJsSpace, Bool.or_eq_false_iff, Bool.and_eq_false_iff,
      decide_eq_false_iff_not]
    omega

theorem natDigits_no_pipe (k : Nat) : '|' ∉ (natToDecimal k).data := by
  intro hm
  exact (digit_char_props (natDigits_all k _ hm)).1 rfl

theorem natDigits_no_hash (k : Nat) : '#' ∉ (natToDecimal k).data := by
  intro hm
  exact (digit_char_props (natDigits_all k _ hm)).2.1 rfl

theorem blockData_no_pipe (m : Nat) : '|' ∉ blockData m := by
  induction m with
  | zero => simp [blockData]
  | succ m ih =>
    simp only [blockData, List.mem_cons, List.mem_append]
    intro h
    rcases h with h | h | h
    · exact absurd h (by decide)
    · exact absurd h (by decide)
    · exact ih h

theorem blockData_no_hash (m : Nat) : '#' ∉ blockData m := by
  induction m with
  | zero => simp [blockData]
  | succ m ih =>
    simp only [blockData, List.mem_cons, List.mem_append]
    intro h
    rcases h with h | h | h
    · exact absurd h (by decide)
    · exact absurd h (by decide)
    · exact ih h

/-- Appending one more rejection line at the end of the log block gives
the next block (the block is a repetition of one fixed line). -/
theorem blockData_snoc (m : Nat) :
    blockData m ++ ('\n' :: entryStr.data) = blockData (m + 1) := by
  induction m with
  | zero => simp [blockData]
  | succ m ih =>
    simp only [blockData] at ih ⊢
    simp only [List.cons_append, List.append_assoc] at ih ⊢
    rw [ih]

/-! Segment computation lemmas. -/

theorem pipeSegs_cons_pipe (cs : List Char) : pipeSegs ('|' :: cs) = [] :: pipeSegs cs := by
  simp [pipeSegs]

theorem pipeSegs_no_pipe {xs : List Char} (h : '|' ∉ xs) : pipeSegs xs = [xs] := by
  induction xs with
  | nil => rfl
  | cons c cs ih =>
    simp only [List.mem_cons, not_or] at h
    have hc : c ≠ '|' := fun he => h.1 he.symm
    simp only [pipeSegs, ih h.2]
    rw [if_neg hc]

theorem pipeSegs_append_pipe {xs : List Char} (h : '|' ∉ xs) (cs : List Char) :
    pipeSegs (xs ++ '|' :: cs) = xs :: pipeSegs cs := by
  induction xs with
  | nil => simp [pipeSegs_cons_pipe]
  | cons c ys ih =>
    simp only [List.mem_cons, not_or] at h
    have hc : c ≠ '|' := fun he => h.1 he.symm
    simp only [List.cons_append, pipeSegs, List.append_eq, ih h.2]
    rw [if_neg hc]

/-- The segments of the standard post-rejection document. -/
theorem segs_mkDoc (k m : Nat) :
    pipeSegs (mkDocData k m) =
      [[], " Status ".data, " IN_PROGRESS ".data, ['\n'], " Retry Count ".data,
       ' ' :: ((natToDecimal k).data ++ [' ']),
       "\n\n## Execution Log\n".data ++ blockData m] := by
  have hd := natDigits_no_pipe k
  have hb := blockData_no_pipe m
  unfold mkDocData
  rw [pipeSegs_cons_pipe, pipeSegs_append_pipe (by decide),
    pipeSegs_append_pipe (by decide)]
  rw [show ('\n' :: '|' :: (" Retry Count ".data ++ '|' ::
      ((' ' :: ((natToDecimal k).data ++ [' '])) ++ '|' ::
        ("\n\n## Execution Log\n".data ++ blockData m)))) =
      (['\n'] ++ '|' :: (" Retry Count ".data ++ '|' ::
      ((' ' :: ((natToDecimal k).data ++ [' '])) ++ '|' ::
        ("\n\n## Execution Log\n".data ++ blockData m)))) from rfl]
  rw [pipeSegs_append_pipe (by decide), pipeSegs_append_pipe (by decide)]
  rw [pipeSegs_append_pipe]
  · rw [pipeSegs_no_pipe]
    intro hmem
    rcases List.mem_append.mp hmem with h1 | h1
    · exact absurd h1 (by decide)
    · exact hb h1
  · intro hmem
    rcases List.mem_cons.mp hmem with h1 | h1
    · exact absurd h1 (by decide)
    · rcases List.mem_append.mp h1 with h2 | h2
      · exact hd h2
      · exact absurd h2 (by decide)

theorem scanRows_mkDoc (k m : Nat) :
    scanRows (mkDocData k m) =
      [(" Status ".data, " IN_PROGRESS ".data),
       (" Retry Count ".data, ' ' :: ((natToDecimal k).data ++ [' ']))] := by
  unfold scanRows
  rw [segs_mkDoc]
  rfl

theorem findSegRow_step_neg {pred : List Char → List Char → Bool}
    {c1 c2 c3 : List Char} {rest : List (List Char)}
    (h : (c1 ≠ [] && c2 ≠ [] && pred c1 c2) = false) :
    findSegRow pred (c1 :: c2 :: c3 :: rest) =
      (findSegRow pred (c2 :: c3 :: rest)).map (fun r => (c1 :: r.1, r.2)) := by
  simp only [findSegRow]
  rw [if_neg (ne_true_of_eq_false h)]

theorem findSegRow_step_pos {pred : List Char → List Char → Bool}
    {c1 c2 c3 : List Char} {rest : List (List Char)}
    (h : (c1 ≠ [] && c2 ≠ [] && pred c1 c2) = true) :
    findSegRow pred (c1 :: c2 :: c3 :: rest) = some ([], c1, c2, c3 :: rest) := by
  simp only [findSegRow]
  rw [if_pos h]

theorem parseMetadataTable_mkDoc_status (k m : Nat) :
    (parseMetadataTable (mkDoc k m)).status = "IN_PROGRESS" := by
  unfold parseMetadataTable
  rw [show (mkDoc k m).data = mkDocData k m from rfl, scanRows_mkDoc]
  simp only [List.foldl_cons, List.foldl_nil, applyMetadataRow_status]
  have h1 : asciiLower (jsTrimList " Retry Count ".data).asString = "retry count" := rfl
  have h2 : asciiLower (jsTrimList " Status ".data).asString = "status" := rfl
  have h3 : (jsTrimList " IN_PROGRESS ".data).asString = "IN_PROGRESS" := rfl
  rw [show (" Retry Count ".data : List Char) =
    [' ', 'R', 'e', 't', 'r', 'y', ' ', 'C', 'o', 'u', 'n', 't', ' '] from rfl] at h1
  rw [show (" Status ".data : List Char) =
    [' ', 'S', 't', 'a', 't', 'u', 's', ' '] from rfl] at h2
  rw [show (" IN_PROGRESS ".data : List Char) =
    [' ', 'I', 'N', '_', 'P', 'R', 'O', 'G', 'R', 'E', 'S', 'S', ' '] from rfl] at h3
  rw [h1, h2, h3, if_neg (by decide), if_pos rfl]

theorem trim_digits_cell (d : List Char) (hne : d ≠ [])
    (hd : ∀ c ∈ d, isAsciiDigit c = true) :
    jsTrimList (' ' :: (d ++ [' '])) = d := by
  have hsp : isJsSpace ' ' = true := rfl
  have h1 : List.dropWhile isJsSpace (' ' :: (d ++ [' '])) = d ++ [' '] := by
    match d, hne with
    | c :: d', _ =>
      have hc : isJsSpace c = false :=
        (digit_char_props (hd c (List.mem_cons_self _ _))).2.2.2.2
      simp only [List.dropWhile, hsp, List.cons_append]
      simp [hc]
  have h2 : List.dropWhile isJsSpace ((d ++ [' ']).reverse) = d.reverse := by
    rw [List.reverse_append]
    match hrev : d.reverse, (by simp [hne] : d.reverse ≠ []) with
    | c :: r', _ =>
      have hcd : c ∈ d := by
        have : c ∈ d.reverse := by rw [hrev]; exact List.mem_cons_self _ _
        simpa using this
      have hc : isJsSpace c = false := (digit_char_props (hd c hcd)).2.2.2.2
      simp only [List.reverse_singleton, List.singleton_append, List.dropWhile, hsp]
      simp [hc]
  unfold jsTrimList
  rw [h1, h2, List.reverse_reverse]

theorem digitsCell_wrap (d : List Char) (hne : d ≠ [])
    (hd : ∀ c ∈ d, isAsciiDigit c = true) :
    digitsCell (' ' :: (d ++ [' '])) = true := by
  unfold digitsCell
  rw [trim_digits_cell d hne hd]
  simp only [List.all_eq_true, Bool.and_eq_true, decide_eq_true_eq]
  exact ⟨hne, hd⟩

theorem findRow_status_mkDoc (k m : Nat) :
    findRow statusRowPred (mkDocData k m) =
      some ([], " Status ".data, " IN_PROGRESS ".data,
        '\n' :: ('|' :: (" Retry Count ".data ++ '|' ::
          ((' ' :: ((natToDecimal k).data ++ [' '])) ++ '|' ::
            ("\n\n## Execution Log\n".data ++ blockData m))))) := by
  unfold findRow
  rw [segs_mkDoc]
  simp only [List.tail_cons, List.headD]
  rw [findSegRow_step_pos (by decide)]
  simp [joinSegs]

theorem findRow_retry_mkDoc (k m : Nat) :
    findRow retryRowPred (mkDocData k m) =
      some ("| Status | IN_PROGRESS |\n".data,
        " Retry Count ".data,
        ' ' :: ((natToDecimal k).data ++ [' ']),
        "\n\n## Execution Log\n".data ++ blockData m) := by
  have hpred : retryRowPred " Retry Count ".data
      (' ' :: ((natToDecimal k).data ++ [' '])) = true := by
    unfold retryRowPred
    rw [digitsCell_wrap _ (natDigits_ne_nil k) (natDigits_all k)]
    decide
  unfold findRow
  rw [segs_mkDoc]
  simp only [List.tail_cons, List.headD]
  rw [findSegRow_step_neg (by decide), findSegRow_step_neg (by decide),
    findSegRow_step_neg (by decide)]
  rw [findSegRow_step_pos (by simp [hpred])]
  simp [joinSegs]

theorem getRetryCount_mkDoc (k m : Nat) : getRetryCount (mkDoc k m) = k := by
  unfold getRetryCount
  rw [show (mkDoc k m).data = mkDocData k m from rfl, findRow_retry_mkDoc]
  show digitsToNat (jsTrimList (' ' :: ((natToDecimal k).data ++ [' ']))) = k
  rw [trim_digits_cell _ (natDigits_ne_nil k) (natDigits_all k)]
  exact natDigits_val k

theorem hasCell_retry_mkDoc (k m : Nat) :
    hasCell (cellIs "retry count") (mkDocData k m) = true := by
  unfold hasCell
  rw [segs_mkDoc]
  simp only [List.tail_cons, hasSegCell]
  rw [show cellIs "retry count" " Retry Count ".data = true from by decide]
  simp

theorem updateTaskStatus_mkDoc (k m : Nat) :
    updateTaskStatus (mkDoc k m) TaskStatus.IN_PROGRESS = mkDoc k m := by
  unfold updateTaskStatus
  rw [show (mkDoc k m).data = mkDocData k m from rfl, findRow_status_mkDoc]
  show (([] : List Char) ++
      ("| Status | " ++ TaskStatus.toStr TaskStatus.IN_PROGRESS ++ " |").data ++
      ('\n' :: ('|' :: (" Retry Count ".data ++ '|' ::
        ((' ' :: ((natToDecimal k).data ++ [' '])) ++ '|' ::
          ("\n\n## Execution Log\n".data ++ blockData m)))))).asString = mkDoc k m
  rw [show ("| Status | " ++ TaskStatus.toStr TaskStatus.IN_PROGRESS ++ " |").data =
    '|' :: (" Status ".data ++ '|' :: (" IN_PROGRESS ".data ++ ['|'])) from rfl]
  show String.mk _ = String.mk (mkDocData k m)
  congr 1

theorem updateRetryCount_mkDoc (k m n : Nat) :
    updateRetryCount (mkDoc k m) n = mkDoc n m := by
  unfold updateRetryCount
  rw [show (mkDoc k m).data = mkDocData k m from rfl]
  rw [if_pos (hasCell_retry_mkDoc k m), findRow_retry_mkDoc]
  show ("| Status | IN_PROGRESS |\n".data ++
      ("| Retry Count | " ++ natToDecimal n ++ " |").data ++
      ("\n\n## Execution Log\n".data ++ blockData m)).asString = mkDoc n m
  rw [show ("| Retry Count | " ++ natToDecimal n ++ " |").data =
    '|' :: (" Retry Count ".data ++ '|' :: [' ']) ++ (natToDecimal n).data ++ [' ', '|']
    from by simp [String.data_append]]
  rw [show ("| Status | IN_PROGRESS |\n".data : List Char) =
    '|' :: (" Status ".data ++ '|' :: (" IN_PROGRESS ".data ++ ['|', '\n'])) from rfl]
  show String.mk _ = String.mk (mkDocData n m)
  congr 1
  unfold mkDocData
  simp [List.cons_append, List.append_assoc]

theorem isPrefixOf_cons_ne {a c : Char} (h : c ≠ a) (pre l : List Char) :
    (a :: pre).isPrefixOf (c :: l) = false := by
  have hb : (a == c) = false := by
    simp only [beq_eq_false_iff_ne, ne_eq]
    exact fun he => h he.symm
  simp [List.isPrefixOf, hb]

theorem appendLogScan_skip {xs : List Char} (h : '#' ∉ xs) (cs : List Char) :
    appendLogScan (xs ++ cs) =
      (appendLogScan cs).map (fun p => (xs ++ p.1, p.2)) := by
  induction xs with
  | nil =>
    simp only [List.nil_append]
    cases appendLogScan cs <;> rfl
  | cons c ys ih =>
    simp only [List.mem_cons, not_or] at h
    have hc : c ≠ '#' := fun he => h.1 he.symm
    rw [show (c :: ys) ++ cs = c :: (ys ++ cs) from rfl]
    rw [appendLogScan]
    rw [isPrefixOf_cons_ne hc]
    simp only [Bool.false_eq_true, if_false]
    rw [ih h.2]
    cases appendLogScan cs <;> rfl

theorem lazySplit_skip {xs : List Char} (h : '\n' ∉ xs) (ys : List Char) :
    lazySplit (xs ++ ys) = (xs ++ (lazySplit ys).1, (lazySplit ys).2) := by
  induction xs with
  | nil => simp
  | cons c zs ih =>
    simp only [List.mem_cons, not_or] at h
    have hc : c ≠ '\n' := fun he => h.1 he.symm
    rw [show (c :: zs) ++ ys = c :: (zs ++ ys) from rfl]
    rw [lazySplit]
    split_ifs with hcond
    · exfalso
      simp [hc] at hcond
    · rw [ih h.2]
      rfl

theorem lazySplit_block (m : Nat) : lazySplit (blockData m) = (blockData m, []) := by
  induction m with
  | zero => rfl
  | succ m ih =>
    show lazySplit ('\n' :: (entryStr.data ++ blockData m)) = _
    rw [lazySplit]
    split_ifs with hcond
    · exfalso
      have h1 : (['-', '-', '-'] : List Char).isPrefixOf (entryStr.data ++ blockData m)
          = false := by
        rw [show (entryStr.data : List Char) =
          '-' :: ' ' :: "[T] REJECTED by u: r".data from rfl]
        rfl
      have h2 : (entryStr.data ++ blockData m).isEmpty = false := by
        rw [show (entryStr.data : List Char) =
          '-' :: ' ' :: "[T] REJECTED by u: r".data from rfl]
        rfl
      rw [h1, h2] at hcond
      simp at hcond
    · rw [lazySplit_skip (show ('\n' : Char) ∉ entryStr.data from by decide)
        (blockData m), ih]
      rfl

theorem logBodyAt_entry (l : List Char) :
    logBodyAt ('\n' :: '\n' :: '-' :: l) =
      some ('\n' :: '\n' :: (lazySplit ('-' :: l)).1, (lazySplit ('-' :: l)).2) := rfl

theorem logBodyAt_block (m : Nat) :
    logBodyAt ('\n' :: blockData m) = some ('\n' :: blockData m, []) := by
  cases m with
  | zero => rfl
  | succ m =>
    show logBodyAt ('\n' :: ('\n' :: (entryStr.data ++ blockData m))) = _
    rw [show (entryStr.data ++ blockData m : List Char) =
      '-' :: (" [T] REJECTED by u: r".data ++ blockData m) from by
        rw [show (entryStr.data : List Char) =
          '-' :: " [T] REJECTED by u: r".data from rfl]
        rfl]
    rw [logBodyAt_entry]
    rw [show ('-' :: (" [T] REJECTED by u: r".data ++ blockData m) : List Char) =
      entryStr.data ++ blockData m from by
        rw [show (entryStr.data : List Char) =
          '-' :: " [T] REJECTED by u: r".data from rfl]
        rfl]
    rw [lazySplit_skip (show ('\n' : Char) ∉ entryStr.data from by decide)
      (blockData m), lazySplit_block m]
    rfl

theorem appendLogScan_block (m : Nat) :
    appendLogScan ("## Execution Log".data ++ ('\n' :: blockData m)) =
      some ("## Execution Log".data ++ ('\n' :: blockData m), []) := by
  rw [show ("## Execution Log".data ++ ('\n' :: blockData m) : List Char) =
    '#' :: ("# Execution Log".data ++ ('\n' :: blockData m)) from rfl]
  rw [appendLogScan]
  split_ifs with hpf
  · rw [show List.drop 16 ('#' :: ("# Execution Log".data ++ ('\n' :: blockData m)))
        = '\n' :: blockData m from rfl]
    rw [logBodyAt_block m]
    rfl
  · exact absurd (by rfl) hpf

theorem mkDocData_decomp (k m : Nat) :
    mkDocData k m =
      ('|' :: (" Status ".data ++ '|' :: (" IN_PROGRESS ".data ++ '|' ::
        ('\n' :: '|' :: (" Retry Count ".data ++ '|' ::
          ((' ' :: ((natToDecimal k).data ++ [' '])) ++ '|' :: ['\n', '\n']))))))
      ++ ("## Execution Log".data ++ ('\n' :: blockData m)) := by
  unfold mkDocData
  rw [show ("\n\n## Execution Log\n".data : List Char) =
    ['\n', '\n'] ++ ("## Execution Log".data ++ ['\n']) from rfl]
  simp [List.cons_append, List.append_assoc]

theorem front_no_hash (k : Nat) :
    '#' ∉ ('|' :: (" Status ".data ++ '|' :: (" IN_PROGRESS ".data ++ '|' ::
      ('\n' :: '|' :: (" Retry Count ".data ++ '|' ::
        ((' ' :: ((natToDecimal k).data ++ [' '])) ++ '|' :: ['\n', '\n'])))))) := by
  intro hm
  simp only [List.mem_cons, List.mem_append, List.mem_singleton] at hm
  casesm* _ ∨ _
  all_goals rename_i hlast
  all_goals
    first
      | exact natDigits_no_hash k hlast
      | exact absurd hlast (by decide)

theorem appendLog_mkDoc (k m : Nat) :
    appendToExecutionLog (mkDoc k m) entryStr = mkDoc k (m + 1) := by
  unfold appendToExecutionLog
  rw [show (mkDoc k m).data = mkDocData k m from rfl]
  rw [mkDocData_decomp k m]
  rw [appendLogScan_skip (front_no_hash k) _]
  rw [appendLogScan_block m]
  show String.mk _ = String.mk (mkDocData k (m + 1))
  congr 1
  rw [mkDocData_decomp k (m + 1), ← blockData_snoc m]
  simp [List.append_assoc]

/-- One rejection maps the invariant document shape to the next one:
the status row is rewritten in place, the retry counter is replaced by
its successor, and one more audit line is appended to the log. -/
theorem rejectStepDoc_mkDoc (k m : Nat) :
    rejectStepDoc (mkDoc k m) = (some (k + 1), mkDoc (k + 1) (m + 1)) := by
  unfold rejectStepDoc reject
  rw [if_neg (show ¬(jsTrim "r" = "") from by decide)]
  rw [show (parseTask (mkDoc k m)).metadata.status
      = (parseMetadataTable (mkDoc k m)).status from rfl]
  rw [parseMetadataTable_mkDoc_status k m]
  rw [show parseStatus "IN_PROGRESS" = some TaskStatus.IN_PROGRESS from rfl]
  simp only [show (parseTask (mkDoc k m)).rawContent = mkDoc k m from rfl,
    getRetryCount_mkDoc k m, updateTaskStatus_mkDoc k m, updateRetryCount_mkDoc,
    show ("- [" ++ "T" ++ "] REJECTED by " ++ "u" ++ ": " ++ "r" : String)
      = entryStr from rfl,
    appendLog_mkDoc]

/-- The first rejection of the standard document establishes the
invariant shape with counter 1 and one log line. -/
theorem rejectStepDoc_std : rejectStepDoc stdTaskDoc = (some 1, mkDoc 1 1) := by
  decide

/-- Iterating rejections from the invariant shape yields successive
counters. -/
theorem rejectIter_mkDoc (j : Nat) : ∀ (k m : Nat),
    rejectIter j (mkDoc k m) = (List.range j).map (fun i => some (k + i + 1)) := by
  induction j with
  | zero => intro k m; rfl
  | succ j ih =>
    intro k m
    show (rejectStepDoc (mkDoc k m)).1 :: rejectIter j (rejectStepDoc (mkDoc k m)).2 = _
    rw [rejectStepDoc_mkDoc k m]
    show some (k + 1) :: rejectIter j (mkDoc (k + 1) (m + 1)) = _
    rw [ih (k + 1) (m + 1), List.range_succ_eq_map, List.map_cons, List.map_map]
    refine congr_arg₂ List.cons rfl ?_
    refine List.map_congr_left fun i hi => ?_
    simp only [Function.comp_apply, Option.some.injEq]
    omega

/-- C5 counterexample: on the document `"| Status | PENDING_REVIEW |\nx"`,
which offers no anchor for inserting a Retry Count row, two successive
successful rejections both report retry count 1 — the incremented
counter is never persisted, refuting the claimed 1, 2, …, n sequence
for every document. -/
theorem C5_counterexample :
    c5step1.1.success = true ∧ c5step1.1.retryCount = some 1 ∧
    c5step2.1.success = true ∧ c5step2.1.retryCount = some 1 := by
  decide

/-- C5 (amended): every successful reject reports
`getRetryCount rawContent + 1`, and on the standard task document the
reported counters of `n` repeated rejections are exactly 1, 2, …, n. -/
theorem C5_retry_counter :
    (∀ (task : ParsedTask) (rejector reason timestamp : String) (v : Vault),
      (reject task rejector reason timestamp v).1.success = true →
      (reject task rejector reason timestamp v).1.retryCount
        = some (getRetryCount task.rawContent + 1)) ∧
    (∀ n : Nat, rejectIter n stdTaskDoc
        = (List.range n).map (fun i => some (i + 1))) := by
  constructor
  · intro task rejector reason timestamp v hs
    unfold reject at hs ⊢
    split_ifs at hs ⊢ with h1
    cases hps : parseStatus task.metadata.status with
    | none => rw [hps] at hs; simp at hs
    | some st => rfl
  · intro n
    cases n with
    | zero => rfl
    | succ n =>
      show (rejectStepDoc stdTaskDoc).1 :: rejectIter n (rejectStepDoc stdTaskDoc).2 = _
      rw [rejectStepDoc_std]
      show some 1 :: rejectIter n (mkDoc 1 1) = _
      rw [rejectIter_mkDoc n 1 1, List.range_succ_eq_map, List.map_cons, List.map_map]
      refine congr_arg₂ List.cons rfl ?_
      refine List.map_congr_left fun i hi => ?_
      simp only [Function.comp_apply, Option.some.injEq]
      omega

/-- C5 witness: a concrete successful rejection whose reported count is
the document counter plus one. -/
theorem C5_witness :
    (reject sampleTask "u" "r" "T" sampleVault).1.success = true ∧
    (reject sampleTask "u" "r" "T" sampleVault).1.retryCount
      = some (getRetryCount sampleTask.rawContent + 1) :=
  ⟨by decide, C5_retry_counter.1 sampleTask "u" "r" "T" sampleVault (by decide)⟩

end Mythril
